import Mathlib

/-
  Verification development for the Ember.js incremental render scheduler
  (renderer module) and the glimmer definition resolver.

  The definitions below are a shallow embedding of the TypeScript source:

  * `RootSpec` / `Root` model `RootState`: a root carries a stable id, a
    `destroyed` flag, and a render closure.  The closure's observable
    behaviour is modelled by the flags `rendered` (the initial render has
    happened and the closure was swapped to the incremental
    `result.rerender` form) together with the counters `fullRenders`
    (initial renders performed) and `invocations` (calls of the render
    operation).  A root's initial render may attach further roots; the
    `spawns` field lists the specifications of the roots it attaches,
    mirroring a render function that calls `_renderRoot` re-entrantly.
  * `innerPass` is the `for` loop inside `Renderer._renderRoots` (including
    the `destroyed` check, the `i >= initialRootsLength` skip and the
    re-entrant push of freshly attached roots), `outerLoop` is the
    surrounding `do ... while (roots.length > initialRootsLength)` loop,
    and `compactRev` is the `removedRoots.pop()` / `indexOf` / `splice`
    compaction that follows, with JavaScript `splice` semantics for a
    negative start index.
  * The loops are written with an explicit fuel argument; `innerPass_total`
    and `outerLoop_total` prove that the fuel chosen in `renderRoots` is
    always sufficient, so the embedding computes the same result the
    source's unbounded loops do.
-/

namespace EmberRender

/-- Specification of a root handed to `_renderRoot`: its view id together
    with the specifications of the roots its render function attaches
    re-entrantly during its initial render. -/
inductive RootSpec : Type where
  | node (id : Nat) (spawns : List RootSpec) : RootSpec

mutual

/-- Number of roots that a spec eventually contributes (itself plus all
    transitively spawned roots). -/
def specSize : RootSpec → Nat
  | .node _ spawns => 1 + specSizeList spawns

def specSizeList : List RootSpec → Nat
  | [] => 0
  | s :: rest => specSize s + specSizeList rest

end

mutual

/-- All view ids contributed by a spec (its own id first). -/
def specIds : RootSpec → List Nat
  | .node i spawns => i :: specIdsList spawns

def specIdsList : List RootSpec → List Nat
  | [] => []
  | s :: rest => specIds s ++ specIdsList rest

end

/-- The state of one `RootState` as observed by the scheduler. -/
structure Root where
  rid : Nat
  destroyed : Bool
  rendered : Bool
  fullRenders : Nat
  invocations : Nat
  spawns : List RootSpec

/-- A freshly constructed `RootState` (first render still pending). -/
def mkRoot : RootSpec → Root
  | .node i spawns =>
    { rid := i
      destroyed := false
      rendered := false
      fullRenders := 0
      invocations := 0
      spawns := spawns }

/-- One invocation of `root.render()`.  The first invocation performs the
    initial render, swaps the closure to the incremental rerender form and
    pushes the roots attached by the render function; later invocations are
    the `result.rerender(\x7b alwaysRevalidate: false \x7d)` revalidation. -/
def renderStep (r : Root) : Root × List Root :=
  if r.rendered then
    ({ r with invocations := r.invocations + 1 }, [])
  else
    ({ r with
        rendered := true
        fullRenders := r.fullRenders + 1
        invocations := r.invocations + 1 }, r.spawns.map mkRoot)

/-- State of one `Renderer` (= one render scheduler). -/
structure Scheduler where
  sid : Nat
  roots : List Root
  removedRoots : List Root
  inRenderTransaction : Bool
  lastRevision : Int
  destroyed : Bool
  registered : Bool

/-- A freshly constructed renderer: `_roots = []`, `_removedRoots = []`,
    `_inRenderTransaction = false`, `_lastRevision = -1`. -/
def initSched : Scheduler :=
  { sid := 0
    roots := []
    removedRoots := []
    inRenderTransaction := false
    lastRevision := -1
    destroyed := false
    registered := false }

/-- The `for (let i = 0; i < roots.length; i++)` loop of `_renderRoots`:
    destroyed roots are queued into `removedRoots`, roots appended during
    this pass (`i >= initialRootsLength`) are skipped, all others have their
    render operation invoked (which may push further roots). -/
def innerPass (initialLen : Nat) : Nat → List Root → List Root → Nat →
    Option (List Root × List Root)
  | 0, _, _, _ => none
  | fuel + 1, roots, removed, i =>
    if h : i < roots.length then
      let r := roots.get ⟨i, h⟩
      if r.destroyed then
        innerPass initialLen fuel roots (removed ++ [r]) (i + 1)
      else if initialLen ≤ i then
        innerPass initialLen fuel roots removed (i + 1)
      else
        let p := renderStep r
        innerPass initialLen fuel (roots.set i p.1 ++ p.2) removed (i + 1)
    else
      some (roots, removed)

/-- Fuel that always suffices for one `innerPass` starting at index 0. -/
def rootPending (r : Root) : Nat :=
  if r.rendered || r.destroyed then 0 else specSizeList r.spawns

def pendingList (roots : List Root) : Nat :=
  (roots.map rootPending).sum

/-- The `do ... while (roots.length > initialRootsLength)` loop of
    `_renderRoots`. -/
def outerLoop : Nat → List Root → List Root → Option (List Root × List Root)
  | 0, _, _ => none
  | fuel + 1, roots, removed =>
    let initialLen := roots.length
    match innerPass initialLen (roots.length + pendingList roots + 1) roots removed 0 with
    | none => none
    | some res =>
      if initialLen < res.1.length then
        outerLoop fuel res.1 res.2
      else
        some res

/-- JavaScript `Array.prototype.indexOf` on root identity (-1 if absent). -/
def jsIndexOf (roots : List Root) (r : Root) : Int :=
  match roots.findIdx? (fun x => x.rid == r.rid) with
  | some i => (i : Int)
  | none => -1

/-- JavaScript `Array.prototype.splice(start, 1)`: a negative start counts
    from the end of the array (clamped at 0). -/
def jsSplice1 (roots : List Root) (start : Int) : List Root :=
  let s : Nat := if start < 0 then ((roots.length : Int) + start).toNat else start.toNat
  roots.take s ++ roots.drop (s + 1)

/-- The compaction loop of `_renderRoots`
    (`while (removedRoots.length) \x7b pop; indexOf; splice \x7d`), applied to
    the queue already reversed so that the head is the root popped first. -/
def compactRev : List Root → List Root → List Root
  | roots, [] => roots
  | roots, r :: rest => compactRev (jsSplice1 roots (jsIndexOf roots r)) rest

/-- `Renderer._renderRoots`: the double loop, the `_lastRevision` commit,
    the compaction of `removedRoots` and the final deregistration check. -/
def renderRoots (clock : Nat) (st : Scheduler) : Scheduler :=
  match outerLoop (pendingList st.roots + 1) st.roots st.removedRoots with
  | some res =>
    let rootsC := compactRev res.1 res.2.reverse
    { st with
      roots := rootsC
      removedRoots := []
      lastRevision := (clock : Int)
      registered := if rootsC.length = 0 then false else st.registered }
  | none => st

/-- `Renderer._renderRootsTransaction`, abstracted over the body run between
    setting and clearing the `_inRenderTransaction` guard.  The body returns
    its (possibly partial) post-state together with a flag telling whether it
    threw; the `finally` block commits `_lastRevision` on the error path and
    always clears the guard. -/
def renderRootsTransactionWith (body : Scheduler → Scheduler × Bool) (clock : Nat)
    (st : Scheduler) : Scheduler × Bool :=
  if st.inRenderTransaction then (st, false)
  else
    let p := body { st with inRenderTransaction := true }
    if p.2 then
      ({ p.1 with lastRevision := (clock : Int), inRenderTransaction := false }, true)
    else
      ({ p.1 with inRenderTransaction := false }, false)

/-- `Renderer._renderRootsTransaction` with the non-throwing `_renderRoots`
    body. -/
def renderRootsTransaction (clock : Nat) (st : Scheduler) : Scheduler :=
  (renderRootsTransactionWith (fun s => (renderRoots clock s, false)) clock st).1

/-- `Renderer._renderRoot`: push the root, register the renderer on the
    0 to 1 root-count transition, then run the transaction. -/
def renderRoot (clock : Nat) (spec : RootSpec) (st : Scheduler) : Scheduler :=
  let roots₁ := st.roots ++ [mkRoot spec]
  renderRootsTransaction clock
    { st with
      roots := roots₁
      registered := if roots₁.length = 1 then true else st.registered }

/-- The `while (i--)` reverse traversal of `Renderer.cleanupRootFor`,
    destroying and immediately splicing out every root owned by the view. -/
def cleanupLoop (vid : Nat) : Nat → List Root → List Root
  | 0, roots => roots
  | i + 1, roots =>
    let roots' :=
      match roots[i]? with
      | some r => if r.rid = vid then roots.take i ++ roots.drop (i + 1) else roots
      | none => roots
    cleanupLoop vid i roots'

/-- `Renderer.cleanupRootFor` (no-op once the renderer is destroyed). -/
def cleanupRootFor (vid : Nat) (st : Scheduler) : Scheduler :=
  if st.destroyed then st
  else { st with roots := cleanupLoop vid st.roots.length st.roots }

/-- `RootState.destroy` as observed through the `destroyed` flag. -/
def destroyRoot (r : Root) : Root :=
  { r with destroyed := true }

/-- `Renderer._clearAllRoots`: destroy every root, clear both arrays and
    deregister if roots were present.  Also returns the destroyed root
    states (dropped by the source, observed here). -/
def clearAllRoots (st : Scheduler) : Scheduler × List Root :=
  ({ st with
      roots := []
      removedRoots := []
      registered := if st.roots.length = 0 then st.registered else false },
   st.roots.map destroyRoot)

/-- `Renderer.destroy`. -/
def destroyRenderer (st : Scheduler) : Scheduler × List Root :=
  if st.destroyed then (st, [])
  else clearAllRoots { st with destroyed := true }

/-- `Renderer._isValid`: destroyed, or no roots, or
    `validateTag(CURRENT_TAG, _lastRevision)` where the revision clock is
    modelled by a monotone `Nat` counter. -/
def isValid (clock : Nat) (st : Scheduler) : Bool :=
  st.destroyed || st.roots.length == 0 || decide ((clock : Int) ≤ st.lastRevision)

/-- `Renderer._revalidate`: short-circuit when valid, otherwise run a
    transaction. -/
def revalidate (clock : Nat) (st : Scheduler) : Scheduler :=
  if isValid clock st then st else renderRootsTransaction clock st

/-
  Process-wide state: the `renderers` registry array swept by the
  backburner `end` hook (`loopEnd`), the `loops` retry counter with
  `ENV._RERENDER_LOOP_LIMIT`, and the lazily created `renderSettledDeferred`
  promise (modelled by an optional handle number).
-/

/-- Process-wide state consumed by the run-loop `begin` / `end` hooks. -/
structure GlobalState where
  renderers : List Scheduler
  loops : Nat
  loopLimit : Nat
  clock : Nat
  deferred : Option Nat
  nextHandle : Nat
  runloopActive : Bool
  scheduledNoop : Bool

/-- What one `loopEnd` sweep did: threw the fatal infinite-invalidation
    error after destroying the offending renderer (carrying the destroyed
    root states), requested one more run-loop cycle via
    `backburner.join(null, K)`, or completed with every renderer valid
    (resolving the settle promise if one was outstanding). -/
inductive SweepOutcome where
  | fatal (sid : Nat) (droppedRoots : List Root)
  | retryScheduled
  | settledCheck (resolved : Bool)

/-- Splits the registry at the first renderer whose `_isValid()` is false,
    mirroring the scan order of the `for` loop in `loopEnd`. -/
def splitFirstInvalid (clock : Nat) : List Scheduler →
    Option (List Scheduler × Scheduler × List Scheduler)
  | [] => none
  | r :: rest =>
    if isValid clock r then
      match splitFirstInvalid clock rest with
      | none => none
      | some pir => some (r :: pir.1, pir.2.1, pir.2.2)
    else
      some ([], r, rest)

/-- The backburner `end` hook `loopEnd`.  At the first invalid renderer:
    above the loop limit, reset `loops`, destroy the renderer (whose
    `_clearAllRoots` deregisters it when roots were present) and throw;
    otherwise increment `loops` and request one more cycle.  If every
    renderer is valid, reset `loops` and resolve the settle promise. -/
def loopEnd (g : GlobalState) : GlobalState × SweepOutcome :=
  match splitFirstInvalid g.clock g.renderers with
  | some pir =>
    if g.loopLimit < g.loops then
      let d := destroyRenderer pir.2.1
      let renderers' :=
        if pir.2.1.destroyed || pir.2.1.roots.length == 0 then
          pir.1 ++ d.1 :: pir.2.2
        else
          pir.1 ++ pir.2.2
      ({ g with loops := 0, renderers := renderers' }, .fatal pir.2.1.sid d.2)
    else
      ({ g with loops := g.loops + 1 }, .retryScheduled)
  | none =>
    ({ g with loops := 0, deferred := none }, .settledCheck g.deferred.isSome)

/-- `renderSettled`: return the outstanding deferred's promise, creating the
    deferred lazily; when no run loop is active, schedule a no-op task so
    the promise is driven to resolution. -/
def renderSettled (g : GlobalState) : Nat × GlobalState :=
  match g.deferred with
  | some h => (h, g)
  | none =>
    let g₁ := { g with deferred := some g.nextHandle, nextHandle := g.nextHandle + 1 }
    if g.runloopActive then (g.nextHandle, g₁)
    else (g.nextHandle, { g₁ with scheduledNoop := true })

end EmberRender

/-
  Shallow embedding of the glimmer definition resolver
  (packages/.../glimmer/lib/resolver.ts).  Object identity of
  factories, classes, compiled templates and template factories is modelled
  by numeric identity tokens; template factories memoize per owner, so
  applying the same factory to the same owner yields the identical template
  object.
-/

namespace EmberResolver

/-- A compiled template object; identity is the pair of the producing
    template factory and the owner (template factories memoize per owner). -/
structure TemplateObj where
  tfid : Nat
  ownerId : Nat
deriving DecidableEq, Repr

/-- A template factory (what `owner.lookup` for templates and
    `getComponentTemplate` return; it is invoked with the owner). -/
structure TemplateFactoryObj where
  tfid : Nat
deriving DecidableEq, Repr

/-- Result of the `getInternalComponentManager` capability probe. -/
inductive ManagerKind where
  | curly
  | templateOnly
  | custom (mid : Nat)
deriving DecidableEq, Repr

/-- A component class, with its optionally attached template
    (`getComponentTemplate`) and its manager capability. -/
structure KlassObj where
  kid : Nat
  attachedTemplate : Option TemplateFactoryObj
  manager : ManagerKind
deriving DecidableEq, Repr

/-- A factory as returned by `owner.factoryFor` (the `class` property may be
    absent). -/
structure FactoryObj where
  fid : Nat
  klass : Option KlassObj
deriving DecidableEq, Repr

/-- The owner interface consumed by the component lookup path. -/
structure COwner where
  oid : Nat
  componentFactory : String → Option FactoryObj
  layoutTemplate : String → Option TemplateFactoryObj
  defaultComponentFactory : FactoryObj

/-- Invoking a template factory with an owner (memoized per owner). -/
def applyTemplateFactory (tf : TemplateFactoryObj) (owner : COwner) : TemplateObj :=
  { tfid := tf.tfid, ownerId := owner.oid }

/-- The `LookupResult` pair of `lookupComponentPair`. -/
structure LookupResult where
  component : Option FactoryObj
  layout : Option TemplateFactoryObj

/-- `lookupComponentPair`: prefer a factory with an attached template, else
    fall back to the independently registered layout; `none` when neither a
    factory nor a layout exists. -/
def lookupComponentPair (owner : COwner) (name : String) : Option LookupResult :=
  let component := owner.componentFactory name
  let attached :=
    match component with
    | some c =>
      match c.klass with
      | some k => k.attachedTemplate
      | none => none
    | none => none
  match attached with
  | some tf => some { component := component, layout := some tf }
  | none =>
    let layout := owner.layoutTemplate name
    match component, layout with
    | none, none => none
    | _, _ => some { component := component, layout := layout }

/-- Identity key of the component-definition cache: the component factory
    when one exists, else the resolved template object. -/
inductive CacheKey where
  | factoryKey (fid : Nat)
  | templateKey (tfid : Nat) (ownerId : Nat)
deriving DecidableEq, Repr

/-- The `state` component of a resolved component definition. -/
inductive DefState where
  | templateOnlyState (name : String)
  | defaultFactoryState (fid : Nat)
  | factoryState (fid : Nat)
  | classState (kid : Nat)
deriving DecidableEq, Repr

/-- A `ResolvedComponentDefinition`. -/
structure ResolvedDef where
  state : DefState
  manager : ManagerKind
  template : Option TemplateObj
deriving DecidableEq, Repr

/-- Mutable state of `ResolverImpl` relevant to component lookup: the
    identity-keyed definition cache plus the instrumentation events fired
    (`_instrumentStart` begins a pair, the finalizer call completes it). -/
structure ResolverState where
  cache : List (CacheKey × ResolvedDef)
  instrStarts : List String
  instrFinishes : List String

/-- `Map.get` on the definition cache. -/
def cacheGet (c : List (CacheKey × ResolvedDef)) (k : CacheKey) : Option ResolvedDef :=
  (c.find? (fun p => p.1 == k)).map (fun p => p.2)

/-- The cache key `_lookupComponentDefinition` computes for a name/owner
    (exposed for stating cache-freshness hypotheses). -/
def componentLookupKey (owner : COwner) (name : String) : Option CacheKey :=
  match lookupComponentPair owner name with
  | none => none
  | some pair =>
    match pair.component with
    | some c => some (.factoryKey c.fid)
    | none =>
      match pair.layout with
      | some tf => some (.templateKey tf.tfid owner.oid)
      | none => none

/-- `ResolverImpl._lookupComponentDefinition`.  `tmplOnly` is the
    `ENV._TEMPLATE_ONLY_GLIMMER_COMPONENTS` flag; the debug assertion
    `missing component class` is the error case. -/
def lookupComponentDefinition (tmplOnly : Bool) (name : String) (owner : COwner)
    (rs : ResolverState) : Except String (Option ResolvedDef × ResolverState) :=
  match lookupComponentPair owner name with
  | none => .ok (none, rs)
  | some pair =>
    let key : CacheKey :=
      match pair.component with
      | some c => .factoryKey c.fid
      | none =>
        match pair.layout with
        | some tf => .templateKey tf.tfid owner.oid
        | none => .templateKey 0 owner.oid
    match cacheGet rs.cache key with
    | some d => .ok (some d, rs)
    | none =>
      let rs₁ := { rs with instrStarts := rs.instrStarts ++ [name] }
      match pair.component with
      | none =>
        let tmpl := pair.layout.map (fun tf => applyTemplateFactory tf owner)
        let d : ResolvedDef :=
          if tmplOnly then
            { state := .templateOnlyState name
              manager := .templateOnly
              template := tmpl }
          else
            { state := .defaultFactoryState owner.defaultComponentFactory.fid
              manager := .curly
              template := tmpl }
        .ok (some d,
          { rs₁ with
            instrFinishes := rs₁.instrFinishes ++ [name]
            cache := rs₁.cache ++ [(key, d)] })
      | some factory =>
        match factory.klass with
        | none => .error ("missing component class " ++ name)
        | some k =>
          let d : ResolvedDef :=
            { state := if k.manager = .curly then .factoryState factory.fid else .classState k.kid
              manager := k.manager
              template := pair.layout.map (fun tf => applyTemplateFactory tf owner) }
          .ok (some d,
            { rs₁ with
              instrFinishes := rs₁.instrFinishes ++ [name]
              cache := rs₁.cache ++ [(key, d)] })

/-- The `BUILTINS_HELPERS` table, with each helper value replaced by an
    identity token (`hash` and `-hash` are the same object in the source and
    share a token). -/
def builtinHelper : String → Option Nat
  | "if" => some 0
  | "action" => some 1
  | "array" => some 2
  | "concat" => some 3
  | "fn" => some 4
  | "get" => some 5
  | "hash" => some 6
  | "log" => some 7
  | "mut" => some 8
  | "query-params" => some 9
  | "readonly" => some 10
  | "unbound" => some 11
  | "unless" => some 12
  | "-hash" => some 6
  | "-each-in" => some 13
  | "-normalize-class" => some 14
  | "-track-array" => some 15
  | "-get-dynamic-var" => some 16
  | "-mount" => some 17
  | "-outlet" => some 18
  | "-assert-implicit-component-helper-argument" => some 19
  | "-in-el-null" => some 20
  | _ => none

/-- A helper class as returned through `factory.class`; `classic` is the
    `isClassicHelper` capability probe. -/
structure HelperKlass where
  hid : Nat
  classic : Bool
deriving DecidableEq, Repr

/-- A helper factory returned by `owner.factoryFor`. -/
structure HelperFactoryObj where
  fid : Nat
  klass : Option HelperKlass
deriving DecidableEq, Repr

/-- The owner interface consumed by the helper lookup path. -/
structure HOwner where
  hasRegistration : String → Bool
  helperFactory : String → Option HelperFactoryObj

/-- What `_lookupHelper` returns: a built-in definition, the factory itself
    (classic helper path) or the `class` property. -/
inductive HelperLookupResult where
  | builtinDef (tok : Nat)
  | factoryDef (fid : Nat)
  | classDef (hid : Nat)
deriving DecidableEq, Repr

/-- `ResolverImpl._lookupHelper`.  The leading debug assertion is the fatal
    shadowing error; `associated` is the `CLASSIC_HELPER_MANAGER_ASSOCIATED`
    weak set (factory ids already wrapped with the classic manager). -/
def lookupHelper (owner : HOwner) (name : String) (associated : List Nat) :
    Except String (Option HelperLookupResult × List Nat) :=
  if (builtinHelper name).isSome && owner.hasRegistration ("helper:" ++ name) then
    .error ("You attempted to overwrite the built-in helper " ++ name)
  else
    match builtinHelper name with
    | some tok => .ok (some (.builtinDef tok), associated)
    | none =>
      match owner.helperFactory ("helper:" ++ name) with
      | none => .ok (none, associated)
      | some factory =>
        match factory.klass with
        | none => .ok (none, associated)
        | some k =>
          if k.classic then
            let associated' :=
              if factory.fid ∈ associated then associated else associated ++ [factory.fid]
            .ok (some (.factoryDef factory.fid), associated')
          else
            .ok (some (.classDef k.hid), associated)

/-- An owner with one template-only component registered under
    `template:components/x-button` and nothing else. -/
def buttonOwner : COwner :=
  { oid := 1
    componentFactory := fun _ => none
    layoutTemplate := fun n => if n = "x-button" then some { tfid := 11 } else none
    defaultComponentFactory := { fid := 99, klass := none } }

/-- An empty resolver state (fresh cache, no instrumentation events). -/
def rsInit : ResolverState :=
  { cache := [], instrStarts := [], instrFinishes := [] }

/-- An owner with no helper registrations at all. -/
def plainHOwner : HOwner :=
  { hasRegistration := fun _ => false
    helperFactory := fun _ => none }

/-- An owner that has a user registration under every helper name
    (in particular under the built-in names). -/
def shadowingHOwner : HOwner :=
  { hasRegistration := fun _ => true
    helperFactory := fun _ => none }

end EmberResolver

/-
  Shallow embedding of `errorLoopTransaction`: the wrapper around a root's
  render closure that, in debug builds, permanently replaces the closure by
  a warn-only no-op after the first throw; outside debug builds the wrapper
  returns the closure unchanged.
-/

namespace EmberErrorLoop

/-- Observable state of one wrapped render closure: how often the underlying
    render ran to completion, how often it was entered, how many warnings
    the no-op printed, and whether the closure was replaced by the no-op. -/
structure WrappedFnState where
  callsToUnderlying : Nat
  renders : Nat
  warnings : Nat
  nooped : Bool
deriving DecidableEq, Repr

/-- One invocation of the closure produced by `errorLoopTransaction fn`.
    `debug` is the build-time `DEBUG` flag; `failsAt n` tells whether the
    underlying render throws on its n-th entry.  Returns the new state and
    whether the invocation raised an error. -/
def invokeWrapped (debug : Bool) (failsAt : Nat → Bool) (s : WrappedFnState) :
    WrappedFnState × Bool :=
  if debug then
    if s.nooped then
      ({ s with warnings := s.warnings + 1 }, false)
    else if failsAt s.callsToUnderlying then
      ({ s with callsToUnderlying := s.callsToUnderlying + 1, nooped := true }, true)
    else
      ({ s with callsToUnderlying := s.callsToUnderlying + 1, renders := s.renders + 1 }, false)
  else
    if failsAt s.callsToUnderlying then
      ({ s with callsToUnderlying := s.callsToUnderlying + 1 }, true)
    else
      ({ s with callsToUnderlying := s.callsToUnderlying + 1, renders := s.renders + 1 }, false)

/-- A sequence of `n` further invocations; returns the final state and the
    list of error flags observed. -/
def iterateWrapped (debug : Bool) (failsAt : Nat → Bool) : Nat → WrappedFnState →
    WrappedFnState × List Bool
  | 0, s => (s, [])
  | n + 1, s =>
    let p := invokeWrapped debug failsAt s
    let q := iterateWrapped debug failsAt n p.1
    (q.1, p.2 :: q.2)

end EmberErrorLoop

namespace EmberRender

/-- The steady-state shape of a root held by a scheduler outside a render
    transaction: not destroyed, and its count of initial renders is 1 once
    the initial render happened and 0 before. -/
def liveOk (r : Root) : Prop :=
  r.destroyed = false ∧ r.fullRenders = (if r.rendered then 1 else 0)

/-- The ids a root accounts for: its own id plus, while its initial render
    is still pending, the ids of every root it will transitively attach. -/
def rootIdsM (r : Root) : Multiset Nat :=
  r.rid ::ₘ (if r.rendered || r.destroyed then 0 else (specIdsList r.spawns : Multiset Nat))

/-- Ids accounted for by a whole root list; invariant under the transaction
    loop's steps. -/
def fullIdsM (roots : List Root) : Multiset Nat :=
  (roots.map rootIdsM).sum

/-- One externally driven scheduler operation: `appendTo`-style attachment
    of a root (whose render function may attach further roots), or
    `cleanupRootFor`-style detachment of every root owned by a view. -/
inductive SchedOp where
  | attach (spec : RootSpec)
  | detach (vid : Nat)

def applyOp (clock : Nat) (st : Scheduler) : SchedOp → Scheduler
  | .attach spec => renderRoot clock spec st
  | .detach vid => cleanupRootFor vid st

def applyOps (clock : Nat) : List SchedOp → Scheduler → Scheduler
  | [], st => st
  | op :: rest, st => applyOps clock rest (applyOp clock st op)

/-- The ids an operation introduces. -/
def opIds : SchedOp → List Nat
  | .attach spec => specIds spec
  | .detach _ => []

/-- The multiset of root ids the specification expects after a sequence of
    operations: attach adds the attached ids, detach removes every id of
    the detached view. -/
def expectedFrom (init : Multiset Nat) : List SchedOp → Multiset Nat
  | [] => init
  | .attach spec :: rest => expectedFrom (init + (specIds spec : Multiset Nat)) rest
  | .detach vid :: rest => expectedFrom (init.filter (fun i => i ≠ vid)) rest

def expectedIds (ops : List SchedOp) : Multiset Nat :=
  expectedFrom 0 ops

/-- A destroyed root still sitting in `_roots` when a transaction starts
    (its owning view was torn down without the splice happening yet). -/
def staleRoot : Root :=
  { rid := 1
    destroyed := true
    rendered := true
    fullRenders := 1
    invocations := 1
    spawns := [] }

/-- A live root whose initial render attaches one further root (id 3). -/
def spawningRoot : Root :=
  { rid := 2
    destroyed := false
    rendered := false
    fullRenders := 0
    invocations := 0
    spawns := [.node 3 []] }

/-- Scheduler state exhibiting a destroyed root that survives two passes of
    the outer do-while loop. -/
def cexSched : Scheduler :=
  { initSched with roots := [staleRoot, spawningRoot] }

/-- A renderer that is invalid at clock revision 1: not destroyed, one
    root, `_lastRevision = -1`. -/
def invalidSched : Scheduler :=
  { initSched with sid := 4, roots := [staleRoot] }

/-- Process state at a run-loop end sweep with one invalid renderer and the
    retry counter beyond the loop limit. -/
def gFatal : GlobalState :=
  { renderers := [invalidSched]
    loops := 6
    loopLimit := 5
    clock := 1
    deferred := some 0
    nextHandle := 1
    runloopActive := true
    scheduledNoop := false }

/-- Same sweep with the retry counter still within the limit. -/
def gRetry : GlobalState :=
  { gFatal with loops := 3 }

/-- A sweep where every registered renderer is valid. -/
def gValid : GlobalState :=
  { gFatal with renderers := [] }

/-- A process state with no outstanding settle promise and no active run
    loop. -/
def gIdle : GlobalState :=
  { gValid with deferred := none, runloopActive := false }

end EmberRender

namespace EmberRender

/-
  Basic facts about spec sizes and ids.
-/

mutual

theorem specIds_length : ∀ s : RootSpec, (specIds s).length = specSize s
  | .node i spawns => by
    rw [specIds, specSize, List.length_cons, specIdsList_length spawns, Nat.add_comm]

theorem specIdsList_length : ∀ l : List RootSpec, (specIdsList l).length = specSizeList l
  | [] => rfl
  | s :: rest => by
    rw [specIdsList, specSizeList, List.length_append, specIds_length s,
      specIdsList_length rest]

end

theorem one_le_specSize (s : RootSpec) : 1 ≤ specSize s := by
  cases s with
  | node i spawns => rw [specSize]; omega

theorem take_get_drop (l : List Root) (i : Nat) (h : i < l.length) :
    l = l.take i ++ l[i] :: l.drop (i + 1) := by
  conv_lhs => rw [← List.take_append_drop i l]
  rw [List.drop_eq_getElem_cons h]

/-
  Algebra of `pendingList` (the termination potential of the transaction
  loop) and `fullIdsM` (the id-accounting invariant).
-/

theorem pendingList_nil : pendingList [] = 0 := rfl

theorem pendingList_cons (r : Root) (l : List Root) :
    pendingList (r :: l) = rootPending r + pendingList l := by
  simp [pendingList]

theorem pendingList_append (l₁ l₂ : List Root) :
    pendingList (l₁ ++ l₂) = pendingList l₁ + pendingList l₂ := by
  simp [pendingList]

theorem pendingList_spawned : ∀ ss : List RootSpec,
    pendingList (ss.map mkRoot) + ss.length = specSizeList ss
  | [] => rfl
  | s :: rest => by
    cases s with
    | node i spawns =>
      have ih := pendingList_spawned rest
      rw [List.map_cons, pendingList_cons, mkRoot, specSizeList, specSize]
      simp only [rootPending, List.length_cons]
      norm_num
      omega

theorem fullIdsM_nil : fullIdsM [] = 0 := rfl

theorem fullIdsM_cons (r : Root) (l : List Root) :
    fullIdsM (r :: l) = rootIdsM r + fullIdsM l := by
  simp [fullIdsM]

theorem fullIdsM_append (l₁ l₂ : List Root) :
    fullIdsM (l₁ ++ l₂) = fullIdsM l₁ + fullIdsM l₂ := by
  simp [fullIdsM]

theorem fullIdsM_spawned : ∀ ss : List RootSpec,
    fullIdsM (ss.map mkRoot) = (specIdsList ss : Multiset Nat)
  | [] => rfl
  | s :: rest => by
    cases s with
    | node i spawns =>
      have ih := fullIdsM_spawned rest
      rw [List.map_cons, fullIdsM_cons, ih, specIdsList, specIds]
      show rootIdsM (mkRoot (.node i spawns)) + _ = _
      rw [mkRoot, rootIdsM]
      norm_num

/-
  Facts about one `renderStep`.
-/

theorem renderStep_fst_rendered (r : Root) : (renderStep r).1.rendered = true := by
  rcases hr : r.rendered <;> simp [renderStep, hr]

theorem renderStep_fst_destroyed (r : Root) : (renderStep r).1.destroyed = r.destroyed := by
  rcases hr : r.rendered <;> simp [renderStep, hr]

theorem renderStep_liveOk {r : Root} (h : liveOk r) : liveOk (renderStep r).1 := by
  obtain ⟨h1, h2⟩ := h
  rcases hr : r.rendered <;> rw [hr] at h2 <;> simp at h2 <;>
    simp [renderStep, hr, liveOk, h1, h2]

theorem mkRoot_liveOk (s : RootSpec) : liveOk (mkRoot s) := by
  cases s; simp [mkRoot, liveOk]

theorem renderStep_snd_liveOk (r : Root) : ∀ x ∈ (renderStep r).2, liveOk x := by
  intro x hx
  rcases hr : r.rendered <;> rw [renderStep] at hx <;> simp [hr] at hx
  obtain ⟨s, _, rfl⟩ := hx
  exact mkRoot_liveOk s

theorem step_length (roots : List Root) (i : Nat) (x : Root) (sp : List Root) :
    (roots.set i x ++ sp).length = roots.length + sp.length := by
  simp

theorem step_pending (roots : List Root) (i : Nat) (h : i < roots.length)
    (hd : roots[i].destroyed = false) :
    pendingList (roots.set i (renderStep roots[i]).1 ++ (renderStep roots[i]).2)
      + (renderStep roots[i]).2.length = pendingList roots := by
  have hdecomp := take_get_drop roots i h
  rw [List.set_eq_take_cons_drop _ h, pendingList_append, pendingList_append,
    pendingList_cons]
  conv_rhs => rw [hdecomp]
  rw [pendingList_append, pendingList_cons]
  have hspawn := pendingList_spawned roots[i].spawns
  rcases hr : roots[i].rendered
  · simp only [renderStep, hr]
    simp [rootPending, hr, hd]
    omega
  · simp only [renderStep, hr]
    simp [rootPending, hr, pendingList]

theorem step_ids (roots : List Root) (i : Nat) (h : i < roots.length)
    (hd : roots[i].destroyed = false) :
    fullIdsM (roots.set i (renderStep roots[i]).1 ++ (renderStep roots[i]).2)
      = fullIdsM roots := by
  have hdecomp := take_get_drop roots i h
  rw [List.set_eq_take_cons_drop _ h, fullIdsM_append, fullIdsM_append, fullIdsM_cons]
  conv_rhs => rw [hdecomp]
  rw [fullIdsM_append, fullIdsM_cons]
  have hspawn := fullIdsM_spawned roots[i].spawns
  rcases hr : roots[i].rendered
  · simp only [renderStep, hr]
    simp [rootIdsM, hr, hd, hspawn]
    rw [← Multiset.cons_coe, ← Multiset.singleton_add, ← Multiset.singleton_add]
    abel
  · simp only [renderStep, hr]
    simp [rootIdsM, hr]
    abel

end EmberRender

namespace EmberRender

/-
  Prefix and index bookkeeping helpers for the loop proofs.
-/

theorem take_of_take_succ {l₁ l₂ : List Root} {i : Nat}
    (h : l₁.take (i + 1) = l₂.take (i + 1)) : l₁.take i = l₂.take i := by
  have h2 : (l₁.take (i + 1)).take i = (l₂.take (i + 1)).take i := by rw [h]
  simpa [List.take_take, Nat.min_eq_left (Nat.le_succ i)] using h2

theorem getElem_of_take_eq {l₁ l₂ : List Root} {n i : Nat} (h : l₁.take n = l₂.take n)
    (hi : i < n) (h₁ : i < l₁.length) (h₂ : i < l₂.length) :
    l₁[i] = l₂[i] := by
  have e₁ : (l₁.take n)[i]? = l₁[i]? := List.getElem?_take_of_lt hi
  have e₂ : (l₂.take n)[i]? = l₂[i]? := List.getElem?_take_of_lt hi
  rw [h, e₂, List.getElem?_eq_getElem h₁, List.getElem?_eq_getElem h₂] at e₁
  exact (Option.some_inj.mp e₁).symm

theorem take_set_append (roots : List Root) (i : Nat) (x : Root) (sp : List Root)
    (h : i < roots.length) :
    (roots.set i x ++ sp).take i = roots.take i := by
  rw [List.take_append_of_le_length (by simp; omega)]
  rw [List.set_eq_take_cons_drop _ h]
  rw [List.take_append_of_le_length (by simp [List.length_take]; omega)]
  simp [List.take_take]

theorem getElem_set_append_self (roots : List Root) (i : Nat) (x : Root) (sp : List Root)
    (h : i < roots.length) (h2 : i < (roots.set i x ++ sp).length) :
    (roots.set i x ++ sp)[i] = x := by
  rw [List.getElem_append_left (by simp [h] : i < (roots.set i x).length)]
  exact List.getElem_set_self (by simp [h])

/-
  The main loop invariants.  `innerPass_spec` is proved by induction on the
  fuel and tracks, through one pass of the `for` loop: monotone growth of
  `roots`, preservation of the termination potential, the untouched prefix
  below the starting index, processedness of every index below
  `initialRootsLength`, preservation of the id accounting, and (for runs
  starting from live roots) preservation of `liveOk` together with the fact
  that nothing is queued into `removedRoots`.
-/

theorem innerPass_spec (L : Nat) : ∀ (fuel : Nat) (roots removed : List Root) (i : Nat)
    (res : List Root × List Root),
    innerPass L fuel roots removed i = some res →
    roots.length ≤ res.1.length
    ∧ res.1.length + pendingList res.1 = roots.length + pendingList roots
    ∧ res.1.take i = roots.take i
    ∧ (∀ j, ∀ hj : j < res.1.length, i ≤ j → j < L →
        res.1[j].destroyed = true ∨ res.1[j].rendered = true)
    ∧ fullIdsM res.1 = fullIdsM roots
    ∧ ((∀ r ∈ roots, liveOk r) → ((∀ r ∈ res.1, liveOk r) ∧ res.2 = removed)) := by
  intro fuel
  induction fuel with
  | zero =>
    intro roots removed i res h
    simp [innerPass] at h
  | succ fuel ih =>
    intro roots removed i res h
    simp only [innerPass, List.get_eq_getElem] at h
    by_cases hlt : i < roots.length
    · rw [dif_pos hlt] at h
      by_cases hdest : roots[i].destroyed = true
      · rw [if_pos hdest] at h
        obtain ⟨H1, H2, H3, H4, H5, H6⟩ := ih roots (removed ++ [roots[i]]) (i + 1) res h
        refine ⟨H1, H2, take_of_take_succ H3, ?_, H5, ?_⟩
        · intro j hj hij hjL
          rcases Nat.lt_or_ge j (i + 1) with hji | hji
          · have hjlt : j < roots.length := by omega
            left
            rw [getElem_of_take_eq H3 (by omega : j < i + 1) hj hjlt]
            have hji2 : j = i := by omega
            subst hji2
            exact hdest
          · exact H4 j hj hji hjL
        · intro hlive
          have := (hlive roots[i] (List.getElem_mem hlt)).1
          rw [this] at hdest
          exact absurd hdest (by simp)
      · rw [if_neg hdest] at h
        by_cases hskip : L ≤ i
        · rw [if_pos hskip] at h
          obtain ⟨H1, H2, H3, H4, H5, H6⟩ := ih roots removed (i + 1) res h
          refine ⟨H1, H2, take_of_take_succ H3, ?_, H5, H6⟩
          intro j hj hij hjL
          rcases Nat.lt_or_ge j (i + 1) with hji | hji
          · omega
          · exact H4 j hj hji hjL
        · rw [if_neg hskip] at h
          have hd : roots[i].destroyed = false := by
            simpa using hdest
          obtain ⟨H1, H2, H3, H4, H5, H6⟩ :=
            ih (roots.set i (renderStep roots[i]).1 ++ (renderStep roots[i]).2)
              removed (i + 1) res h
          have hlen := step_length roots i (renderStep roots[i]).1 (renderStep roots[i]).2
          have hpend := step_pending roots i hlt hd
          have hids := step_ids roots i hlt hd
          have hmid : i < (roots.set i (renderStep roots[i]).1
              ++ (renderStep roots[i]).2).length := by
            rw [hlen]; omega
          refine ⟨by omega, by omega, ?_, ?_, by rw [H5, hids], ?_⟩
          · have := take_of_take_succ H3
            rw [this, take_set_append roots i _ _ hlt]
          · intro j hj hij hjL
            rcases Nat.lt_or_ge j (i + 1) with hji | hji
            · have hji2 : j = i := by omega
              subst hji2
              right
              rw [getElem_of_take_eq H3 (by omega) hj hmid]
              rw [getElem_set_append_self _ _ _ _ hlt hmid]
              exact renderStep_fst_rendered _
            · exact H4 j hj hji hjL
          · intro hlive
            refine H6 ?_
            intro r hr
            rcases List.mem_append.mp hr with hr₁ | hr₂
            · rcases List.mem_or_eq_of_mem_set hr₁ with hr₃ | hr₃
              · exact hlive r hr₃
              · rw [hr₃]
                exact renderStep_liveOk (hlive roots[i] (List.getElem_mem hlt))
            · exact renderStep_snd_liveOk roots[i] r hr₂
    · rw [dif_neg hlt] at h
      obtain rfl : (roots, removed) = res := by injection h
      refine ⟨Nat.le_refl _, rfl, rfl, ?_, rfl, fun hlive => ⟨hlive, rfl⟩⟩
      intro j hj hij hjL
      simp at hj
      omega

theorem innerPass_total (L : Nat) : ∀ (fuel : Nat) (roots removed : List Root) (i : Nat),
    roots.length - i + pendingList roots < fuel →
    ∃ res, innerPass L fuel roots removed i = some res := by
  intro fuel
  induction fuel with
  | zero =>
    intro roots removed i h
    exact absurd h (Nat.not_lt_zero _)
  | succ fuel ih =>
    intro roots removed i hfuel
    simp only [innerPass, List.get_eq_getElem]
    by_cases hlt : i < roots.length
    · rw [dif_pos hlt]
      by_cases hdest : roots[i].destroyed = true
      · rw [if_pos hdest]
        exact ih roots (removed ++ [roots[i]]) (i + 1) (by omega)
      · rw [if_neg hdest]
        by_cases hskip : L ≤ i
        · rw [if_pos hskip]
          exact ih roots removed (i + 1) (by omega)
        · rw [if_neg hskip]
          have hd : roots[i].destroyed = false := by simpa using hdest
          have hpend := step_pending roots i hlt hd
          have hlen := step_length roots i (renderStep roots[i]).1 (renderStep roots[i]).2
          exact ih _ removed (i + 1) (by omega)
    · rw [dif_neg hlt]
      exact ⟨(roots, removed), rfl⟩

theorem outerLoop_spec : ∀ (fuel : Nat) (roots removed : List Root)
    (res : List Root × List Root),
    outerLoop fuel roots removed = some res →
    roots.length ≤ res.1.length
    ∧ (∀ j, ∀ hj : j < res.1.length,
        res.1[j].destroyed = true ∨ res.1[j].rendered = true)
    ∧ fullIdsM res.1 = fullIdsM roots
    ∧ ((∀ r ∈ roots, liveOk r) → ((∀ r ∈ res.1, liveOk r) ∧ res.2 = removed)) := by
  intro fuel
  induction fuel with
  | zero =>
    intro roots removed res h
    simp [outerLoop] at h
  | succ fuel ih =>
    intro roots removed res h
    cases hinner : innerPass roots.length (roots.length + pendingList roots + 1)
        roots removed 0 with
    | none => simp [outerLoop, hinner] at h
    | some res₁ =>
      simp only [outerLoop, hinner] at h
      obtain ⟨I1, I2, I3, I4, I5, I6⟩ :=
        innerPass_spec roots.length _ roots removed 0 res₁ hinner
      by_cases hgrow : roots.length < res₁.1.length
      · rw [if_pos hgrow] at h
        obtain ⟨O1, O2, O3, O4⟩ := ih res₁.1 res₁.2 res h
        refine ⟨by omega, O2, by rw [O3, I5], ?_⟩
        intro hlive
        obtain ⟨L1, L2⟩ := I6 hlive
        obtain ⟨M1, M2⟩ := O4 L1
        exact ⟨M1, by rw [M2, L2]⟩
      · rw [if_neg hgrow] at h
        obtain rfl : res₁ = res := by injection h
        refine ⟨I1, ?_, I5, I6⟩
        intro j hj
        exact I4 j hj (Nat.zero_le j) (by omega)

theorem outerLoop_total : ∀ (fuel : Nat) (roots removed : List Root),
    pendingList roots < fuel →
    ∃ res, outerLoop fuel roots removed = some res := by
  intro fuel
  induction fuel with
  | zero =>
    intro roots removed h
    exact absurd h (Nat.not_lt_zero _)
  | succ fuel ih =>
    intro roots removed hfuel
    obtain ⟨res₁, hinner⟩ := innerPass_total roots.length
      (roots.length + pendingList roots + 1) roots removed 0 (by omega)
    simp only [outerLoop, hinner]
    obtain ⟨I1, I2, _, _, _, _⟩ :=
      innerPass_spec roots.length _ roots removed 0 res₁ hinner
    by_cases hgrow : roots.length < res₁.1.length
    · rw [if_pos hgrow]
      exact ih res₁.1 res₁.2 (by omega)
    · rw [if_neg hgrow]
      exact ⟨res₁, rfl⟩

end EmberRender

namespace EmberRender

/-- Once every root of a list is rendered or destroyed, the id accounting
    degenerates to the plain root ids. -/
theorem rendered_fullIdsM : ∀ l : List Root,
    (∀ r ∈ l, r.rendered = true ∨ r.destroyed = true) →
    fullIdsM l = ((l.map Root.rid : List Nat) : Multiset Nat)
  | [], _ => rfl
  | r :: rest, h => by
    have ih := rendered_fullIdsM rest (fun x hx => h x (List.mem_cons_of_mem r hx))
    rw [fullIdsM_cons, List.map_cons, ← Multiset.cons_coe, ih, rootIdsM]
    rcases h r (List.mem_cons_self r rest) with hr | hr <;>
      simp [hr, Multiset.cons_add]

theorem rootIdsM_mkRoot (spec : RootSpec) :
    rootIdsM (mkRoot spec) = ((specIds spec : List Nat) : Multiset Nat) := by
  cases spec with
  | node i spawns =>
    rw [mkRoot, rootIdsM, specIds]
    norm_num

/-- Full characterisation of `Renderer._renderRoot` when called outside a
    transaction on a scheduler whose roots are all rendered and live: the
    attached root and everything it transitively attaches are appended (id
    accounting is exact), every root ends up rendered with exactly one
    initial render, the guard is back down, nothing was queued for removal,
    the revision is committed, and the renderer registers itself on the
    0-to-1 root transition. -/
theorem renderRoot_spec (clock : Nat) (spec : RootSpec) (st : Scheduler)
    (htx : st.inRenderTransaction = false)
    (hroots : ∀ r ∈ st.roots, liveOk r ∧ r.rendered = true)
    (hrem : st.removedRoots = []) :
    (((renderRoot clock spec st).roots.map Root.rid : List Nat) : Multiset Nat)
        = ((st.roots.map Root.rid : List Nat) : Multiset Nat)
          + ((specIds spec : List Nat) : Multiset Nat)
    ∧ (∀ r ∈ (renderRoot clock spec st).roots,
        liveOk r ∧ r.rendered = true ∧ r.fullRenders = 1)
    ∧ (renderRoot clock spec st).inRenderTransaction = false
    ∧ (renderRoot clock spec st).removedRoots = []
    ∧ (renderRoot clock spec st).destroyed = st.destroyed
    ∧ (renderRoot clock spec st).sid = st.sid
    ∧ (renderRoot clock spec st).lastRevision = (clock : Int)
    ∧ (renderRoot clock spec st).registered
        = (if st.roots.length = 0 then true else st.registered) := by
  obtain ⟨res, hres⟩ := outerLoop_total (pendingList (st.roots ++ [mkRoot spec]) + 1)
    (st.roots ++ [mkRoot spec]) [] (Nat.lt_succ_self _)
  obtain ⟨O1, O2, O3, O4⟩ := outerLoop_spec _ _ _ _ hres
  have hlive₁ : ∀ r ∈ st.roots ++ [mkRoot spec], liveOk r := by
    intro r hr
    rcases List.mem_append.mp hr with h1 | h1
    · exact (hroots r h1).1
    · simp at h1
      rw [h1]
      exact mkRoot_liveOk spec
  obtain ⟨P1, P2⟩ := O4 hlive₁
  have hmain : renderRoot clock spec st =
      { st with
        roots := res.1
        removedRoots := []
        inRenderTransaction := false
        lastRevision := (clock : Int)
        registered := if st.roots.length = 0 then true else st.registered } := by
    rw [renderRoot, renderRootsTransaction, renderRootsTransactionWith]
    simp only [htx, Bool.false_eq_true, if_false, renderRoots, hrem, hres, P2,
      List.reverse_nil, compactRev]
    have h2 : (st.roots ++ [mkRoot spec]).length = st.roots.length + 1 := by
      simp
    have hne : ¬ res.1.length = 0 := by omega
    simp only [hne, if_false]
    have hreg : (if (st.roots ++ [mkRoot spec]).length = 1 then true else st.registered)
        = (if st.roots.length = 0 then true else st.registered) := by
      rcases Nat.eq_zero_or_pos st.roots.length with hz | hp
      · rw [if_pos (by omega), if_pos hz]
      · rw [if_neg (by omega), if_neg (by omega)]
    simp only [List.length_append] at hreg ⊢
    rw [hreg]
  have hprocessed : ∀ r ∈ res.1, r.rendered = true ∨ r.destroyed = true := by
    intro r hr
    obtain ⟨j, hj, rfl⟩ := List.mem_iff_getElem.mp hr
    exact (O2 j hj).symm
  have hlive₂ : ∀ r ∈ res.1, liveOk r ∧ r.rendered = true ∧ r.fullRenders = 1 := by
    intro r hr
    have hl := P1 r hr
    have hrend : r.rendered = true := by
      rcases hprocessed r hr with h1 | h1
      · exact h1
      · rw [hl.1] at h1
        exact absurd h1 (by simp)
    refine ⟨hl, hrend, ?_⟩
    have := hl.2
    rw [hrend] at this
    simpa using this
  have hids : ((res.1.map Root.rid : List Nat) : Multiset Nat)
      = ((st.roots.map Root.rid : List Nat) : Multiset Nat)
        + ((specIds spec : List Nat) : Multiset Nat) := by
    have h1 := rendered_fullIdsM res.1 hprocessed
    have h2 : fullIdsM (st.roots ++ [mkRoot spec])
        = ((st.roots.map Root.rid : List Nat) : Multiset Nat)
          + ((specIds spec : List Nat) : Multiset Nat) := by
      rw [fullIdsM_append,
        rendered_fullIdsM st.roots (fun r hr => Or.inl (hroots r hr).2),
        fullIdsM_cons, fullIdsM_nil, rootIdsM_mkRoot]
      rw [add_zero]
    rw [← h1, ← h2, O3]
  rw [hmain]
  refine ⟨hids, hlive₂, rfl, rfl, rfl, rfl, rfl, rfl⟩

end EmberRender

namespace EmberRender

/-- C1: every root handed to `_renderRoot` — including every root attached
    re-entrantly by another root's render function during the active
    transaction — is present in the scheduler's roots and has received its
    initial render exactly once by the time the outermost synchronous call
    returns; in particular a root attached mid-transaction is rendered in a
    later pass of the same do-while loop rather than deferred, and roots
    already processed in the tick keep an initial-render count of 1 (they
    are only revalidated, never fully re-rendered). -/
theorem claim_C1_attach_renders_once (clock : Nat) (spec : RootSpec) (st : Scheduler)
    (htx : st.inRenderTransaction = false)
    (hroots : ∀ r ∈ st.roots, liveOk r ∧ r.rendered = true)
    (hrem : st.removedRoots = []) :
    (((renderRoot clock spec st).roots.map Root.rid : List Nat) : Multiset Nat)
        = ((st.roots.map Root.rid : List Nat) : Multiset Nat)
          + ((specIds spec : List Nat) : Multiset Nat)
    ∧ ∀ r ∈ (renderRoot clock spec st).roots,
        r.rendered = true ∧ r.fullRenders = 1 ∧ r.destroyed = false := by
  obtain ⟨A, B, _⟩ := renderRoot_spec clock spec st htx hroots hrem
  refine ⟨A, ?_⟩
  intro r hr
  obtain ⟨hl, h2, h3⟩ := B r hr
  exact ⟨h2, h3, hl.1⟩

/-- Witness for C1: attach, to a fresh scheduler, a root whose render
    function attaches two further roots, one of which attaches yet another
    root during the same transaction. -/
theorem claim_C1_attach_renders_once_witness :
    (((renderRoot 5 (.node 1 [.node 2 [.node 4 []], .node 3 []]) initSched).roots.map
        Root.rid : List Nat) : Multiset Nat)
        = ((initSched.roots.map Root.rid : List Nat) : Multiset Nat)
          + ((specIds (.node 1 [.node 2 [.node 4 []], .node 3 []]) : List Nat) : Multiset Nat)
    ∧ ∀ r ∈ (renderRoot 5 (.node 1 [.node 2 [.node 4 []], .node 3 []]) initSched).roots,
        r.rendered = true ∧ r.fullRenders = 1 ∧ r.destroyed = false :=
  claim_C1_attach_renders_once 5 (.node 1 [.node 2 [.node 4 []], .node 3 []]) initSched
    rfl (by simp [initSched]) rfl

/-- C4: `_isValid` holds exactly when the renderer is destroyed, or holds no
    roots, or the revision clock reports no change since `_lastRevision`;
    consequently a revalidation issued while the clock is unchanged since
    the last committed revision short-circuits and performs no render work
    at all (the state, including every render counter, is untouched). -/
theorem claim_C4_isValid_shortcircuit (clock : Nat) (st : Scheduler) :
    (isValid clock st = true
      ↔ (st.destroyed = true ∨ st.roots = [] ∨ (clock : Int) ≤ st.lastRevision))
    ∧ ((clock : Int) ≤ st.lastRevision → revalidate clock st = st) := by
  constructor
  · rw [isValid]
    simp only [Bool.or_eq_true, beq_iff_eq, decide_eq_true_eq, List.length_eq_zero,
      or_assoc]
  · intro hclock
    rw [revalidate, if_pos]
    rw [isValid]
    simp [hclock]

/-- Witness for C4: a scheduler with one root and `_lastRevision = 7` seen
    at clock revision 7 revalidates to itself. -/
theorem claim_C4_isValid_shortcircuit_witness :
    revalidate 7 { initSched with roots := [staleRoot], lastRevision := 7 }
      = { initSched with roots := [staleRoot], lastRevision := 7 } :=
  (claim_C4_isValid_shortcircuit 7
    { initSched with roots := [staleRoot], lastRevision := 7 }).2 (by norm_num)

/-- C10: whatever the transaction body does — including throwing — the
    `_inRenderTransaction` guard is false again when
    `_renderRootsTransaction` finishes, and on the throwing path the
    implementation additionally records the clock's current revision as
    `_lastRevision`, so the scheduler then reports valid and a subsequent
    revalidation does nothing (the failed transaction is not retried). -/
theorem claim_C10_guard_reset (body : Scheduler → Scheduler × Bool) (clock : Nat)
    (st : Scheduler) (htx : st.inRenderTransaction = false) :
    (renderRootsTransactionWith body clock st).1.inRenderTransaction = false
    ∧ ((renderRootsTransactionWith body clock st).2 = true →
        (renderRootsTransactionWith body clock st).1.lastRevision = (clock : Int)
        ∧ isValid clock (renderRootsTransactionWith body clock st).1 = true
        ∧ revalidate clock (renderRootsTransactionWith body clock st).1
            = (renderRootsTransactionWith body clock st).1) := by
  have hexp : renderRootsTransactionWith body clock st
      = (if (body { st with inRenderTransaction := true }).2 then
          ({ (body { st with inRenderTransaction := true }).1 with
              lastRevision := (clock : Int)
              inRenderTransaction := false }, true)
        else
          ({ (body { st with inRenderTransaction := true }).1 with
              inRenderTransaction := false }, false)) := by
    rw [renderRootsTransactionWith, if_neg (by simp [htx])]
  rcases hthrew : (body { st with inRenderTransaction := true }).2
  · constructor
    · simp [hexp, hthrew]
    · intro hcontra
      rw [hexp] at hcontra
      simp [hthrew] at hcontra
  · constructor
    · simp [hexp, hthrew]
    · intro hthrew2
      have hlast : (renderRootsTransactionWith body clock st).1.lastRevision
          = (clock : Int) := by
        simp [hexp, hthrew]
      have hv : isValid clock (renderRootsTransactionWith body clock st).1 = true := by
        rw [isValid, hlast]
        simp
      refine ⟨hlast, hv, ?_⟩
      rw [revalidate, if_pos hv]

/-- Witness for C10: a body that throws immediately still leaves the guard
    down, commits the revision and reports valid. -/
theorem claim_C10_guard_reset_witness :
    (renderRootsTransactionWith (fun s => (s, true)) 9 initSched).1.inRenderTransaction = false
    ∧ (renderRootsTransactionWith (fun s => (s, true)) 9 initSched).1.lastRevision = (9 : Int)
    ∧ isValid 9 (renderRootsTransactionWith (fun s => (s, true)) 9 initSched).1 = true := by
  have h := claim_C10_guard_reset (fun s => (s, true)) 9 initSched rfl
  obtain ⟨h1, h2⟩ := h
  obtain ⟨h3, h4, _⟩ := h2 rfl
  exact ⟨h1, h3, h4⟩

end EmberRender

namespace EmberRender

/-- Counterexample to C5 as stated: attaching one root registers the
    renderer, but detaching that root through `cleanupRootFor` leaves the
    renderer registered while holding zero roots — membership does not
    toggle on the 1-to-0 transition taken by the detach path. -/
theorem claim_C5_counterexample :
    (cleanupRootFor 7 (renderRoot 0 (.node 7 []) initSched)).roots.length = 0
    ∧ (cleanupRootFor 7 (renderRoot 0 (.node 7 []) initSched)).registered = true := by
  constructor <;> rfl

/-- C5 amended: registration happens on the 0-to-1 transition when a root
    is attached, and deregistration happens when a render transaction ends
    with zero roots and when a renderer holding roots is destroyed; but the
    detach path (`cleanupRootFor`) never deregisters, so detaching the last
    root leaves the scheduler registered with zero roots. -/
theorem claim_C5_registry_transitions (clock : Nat) (spec : RootSpec) (st : Scheduler)
    (htx : st.inRenderTransaction = false)
    (hroots : ∀ r ∈ st.roots, liveOk r ∧ r.rendered = true)
    (hrem : st.removedRoots = []) :
    (st.roots = [] → (renderRoot clock spec st).registered = true)
    ∧ (st.roots ≠ [] → (renderRoot clock spec st).registered = st.registered)
    ∧ (∀ st₂ : Scheduler, (renderRoots clock st₂).roots.length = 0 →
        (renderRoots clock st₂).registered = false)
    ∧ (∀ (vid : Nat) (st₂ : Scheduler),
        (cleanupRootFor vid st₂).registered = st₂.registered)
    ∧ (∀ st₂ : Scheduler, st₂.destroyed = false → st₂.roots ≠ [] →
        (destroyRenderer st₂).1.registered = false) := by
  obtain ⟨_, _, _, _, _, _, _, hreg⟩ := renderRoot_spec clock spec st htx hroots hrem
  refine ⟨?_, ?_, ?_, ?_, ?_⟩
  · intro hz
    rw [hreg, if_pos (by rw [hz]; rfl)]
  · intro hnz
    rw [hreg, if_neg (by simpa using hnz)]
  · intro st₂ hlen
    obtain ⟨res, hres⟩ := outerLoop_total (pendingList st₂.roots + 1) st₂.roots
      st₂.removedRoots (Nat.lt_succ_self _)
    simp only [renderRoots, hres] at hlen ⊢
    rw [if_pos hlen]
  · intro vid st₂
    rw [cleanupRootFor]
    split <;> rfl
  · intro st₂ hd hne
    rw [destroyRenderer, if_neg (by simp [hd]), clearAllRoots]
    simp only []
    rw [if_neg (by simpa using hne)]

/-- Witness for C5 (amended): attach to a fresh scheduler, observe
    registration; detach keeps registration; destroying a renderer with a
    root deregisters it. -/
theorem claim_C5_registry_transitions_witness :
    (renderRoot 0 (.node 7 []) initSched).registered = true
    ∧ (cleanupRootFor 7 (renderRoot 0 (.node 7 []) initSched)).registered
        = (renderRoot 0 (.node 7 []) initSched).registered
    ∧ (destroyRenderer { initSched with roots := [staleRoot] }).1.registered = false := by
  have h := claim_C5_registry_transitions 0 (.node 7 []) initSched rfl
    (by simp [initSched]) rfl
  exact ⟨h.1 rfl, h.2.2.2.1 7 (renderRoot 0 (.node 7 []) initSched),
    h.2.2.2.2 { initSched with roots := [staleRoot] } rfl (by simp)⟩

end EmberRender

namespace EmberRender

/-
  The detach path: `cleanupRootFor` removes exactly the roots owned by the
  view (reverse traversal with immediate splice equals a filter).
-/

theorem cleanupLoop_spec (vid : Nat) : ∀ (n : Nat) (l : List Root), n ≤ l.length →
    cleanupLoop vid n l = (l.take n).filter (fun r => !(r.rid == vid)) ++ l.drop n := by
  intro n
  induction n with
  | zero =>
    intro l h
    simp [cleanupLoop]
  | succ n ih =>
    intro l h
    have hn : n < l.length := by omega
    rw [cleanupLoop]
    simp only [List.getElem?_eq_getElem hn]
    have htakelen : (l.take n).length = n := List.length_take_of_le (by omega)
    have htaken : l.take (n + 1) = l.take n ++ [l[n]] := by
      rw [List.take_succ, List.getElem?_eq_getElem hn]
      rfl
    by_cases hmatch : l[n].rid = vid
    · rw [if_pos hmatch]
      have hlen' : n ≤ (l.take n ++ l.drop (n + 1)).length := by
        simp [htakelen]
      rw [ih (l.take n ++ l.drop (n + 1)) hlen']
      have h1 : (l.take n ++ l.drop (n + 1)).take n = l.take n := by
        rw [List.take_append_of_le_length (by omega), List.take_take]
        simp
      have h2 : (l.take n ++ l.drop (n + 1)).drop n = l.drop (n + 1) := by
        have hdl := List.drop_left (l.take n) (l.drop (n + 1))
        rwa [htakelen] at hdl
      rw [h1, h2, htaken, List.filter_append]
      have h3 : [l[n]].filter (fun r => !(r.rid == vid)) = [] := by
        simp [hmatch]
      rw [h3, List.append_nil]
    · rw [if_neg hmatch]
      rw [ih l (by omega), htaken, List.filter_append]
      have h3 : [l[n]].filter (fun r => !(r.rid == vid)) = [l[n]] := by
        simp [hmatch]
      rw [h3]
      rw [List.drop_eq_getElem_cons hn]
      simp

theorem cleanupRootFor_eq (vid : Nat) (st : Scheduler) (hd : st.destroyed = false) :
    cleanupRootFor vid st
      = { st with roots := st.roots.filter (fun r => !(r.rid == vid)) } := by
  rw [cleanupRootFor, if_neg (by simp [hd])]
  rw [cleanupLoop_spec vid st.roots.length st.roots (Nat.le_refl _)]
  simp

/-
  The compaction loop: popping a queue of roots whose ids occur (each at
  most once) among pairwise-distinct root ids removes exactly those roots.
  (The C2 counterexample shows what happens when an id occurs twice in the
  queue: the second `indexOf` miss makes `splice(-1, 1)` drop a live root.)
-/

theorem map_rid_filter (p : Nat → Bool) : ∀ l : List Root,
    (l.filter (fun r => p r.rid)).map Root.rid = (l.map Root.rid).filter p
  | [] => rfl
  | r :: rest => by
    by_cases hp : p r.rid = true <;>
      simp [List.filter_cons, hp, map_rid_filter p rest]

theorem findIdx_erase : ∀ (roots : List Root) (q : Root),
    (roots.map Root.rid).Nodup → q.rid ∈ roots.map Root.rid →
    jsSplice1 roots (jsIndexOf roots q) = roots.filter (fun r => !(r.rid == q.rid))
  | [], q, _, hmem => by simp at hmem
  | a :: rest, q, hnd, hmem => by
    by_cases ha : a.rid = q.rid
    · have hfind : (a :: rest).findIdx? (fun x => x.rid == q.rid) = some 0 := by
        simp [List.findIdx?_cons, ha]
      rw [jsIndexOf, hfind]
      have hrest : rest.filter (fun r => !(r.rid == q.rid)) = rest := by
        apply List.filter_eq_self.mpr
        intro x hx
        have hne : x.rid ≠ a.rid := by
          rw [List.map_cons] at hnd
          have := (List.nodup_cons.mp hnd).1
          intro hcontra
          exact this (hcontra ▸ List.mem_map_of_mem Root.rid hx)
        simp [ha ▸ hne]
      rw [List.filter_cons_of_neg (by simp [ha])]
      rw [hrest]
      rw [jsSplice1]
      norm_num
    · have hmem' : q.rid ∈ rest.map Root.rid := by
        rw [List.map_cons] at hmem
        rcases List.mem_cons.mp hmem with h1 | h1
        · exact absurd h1.symm ha
        · exact h1
      have hnd' : (rest.map Root.rid).Nodup := by
        rw [List.map_cons] at hnd
        exact (List.nodup_cons.mp hnd).2
      obtain ⟨x, hx, hxq⟩ := List.mem_map.mp hmem'
      have hfsome : ∃ idx, rest.findIdx? (fun r => r.rid == q.rid) = some idx := by
        rcases hcase : rest.findIdx? (fun r => r.rid == q.rid) with _ | idx
        · rw [List.findIdx?_eq_none_iff] at hcase
          have := hcase x hx
          simp [hxq] at this
        · exact ⟨idx, hcase⟩
      obtain ⟨idx, hidx⟩ := hfsome
      have hfind : (a :: rest).findIdx? (fun x => x.rid == q.rid)
          = some (idx + 1) := by
        simp [List.findIdx?_cons, ha, hidx]
      have hih := findIdx_erase rest q hnd' hmem'
      rw [jsIndexOf, hidx] at hih
      rw [jsIndexOf, hfind]
      rw [List.filter_cons_of_pos (by simp [ha])]
      rw [← hih]
      rw [jsSplice1, jsSplice1]
      norm_num
      rfl

theorem compactRev_removes : ∀ (queue roots : List Root),
    (roots.map Root.rid).Nodup →
    (queue.map Root.rid).Nodup →
    (∀ q ∈ queue, q.rid ∈ roots.map Root.rid) →
    compactRev roots queue
      = roots.filter (fun r => !((queue.map Root.rid).contains r.rid))
  | [], roots, _, _, _ => by simp [compactRev]
  | q :: rest, roots, hnd, hqnd, hmem => by
    rw [compactRev, findIdx_erase roots q hnd (hmem q (List.mem_cons_self _ _))]
    have hnd₂ : ((roots.filter (fun r => !(r.rid == q.rid))).map Root.rid).Nodup := by
      exact ((List.filter_sublist roots).map Root.rid).nodup hnd
    have hqnd₂ : (rest.map Root.rid).Nodup := by
      rw [List.map_cons] at hqnd
      exact (List.nodup_cons.mp hqnd).2
    have hqfresh : q.rid ∉ rest.map Root.rid := by
      rw [List.map_cons] at hqnd
      exact (List.nodup_cons.mp hqnd).1
    have hmem₂ : ∀ p ∈ rest,
        p.rid ∈ (roots.filter (fun r => !(r.rid == q.rid))).map Root.rid := by
      intro p hp
      have h1 : p.rid ∈ roots.map Root.rid := hmem p (List.mem_cons_of_mem _ hp)
      obtain ⟨x, hx, hxp⟩ := List.mem_map.mp h1
      have hpq : p.rid ≠ q.rid := by
        intro hcontra
        exact hqfresh (hcontra ▸ List.mem_map_of_mem Root.rid hp)
      have hxkeep : x ∈ roots.filter (fun r => !(r.rid == q.rid)) := by
        rw [List.mem_filter]
        refine ⟨hx, ?_⟩
        simp [hxp, hpq]
      exact hxp ▸ List.mem_map_of_mem Root.rid hxkeep
    rw [compactRev_removes rest _ hnd₂ hqnd₂ hmem₂]
    rw [List.filter_filter]
    apply List.filter_congr
    intro r hr
    rw [List.map_cons, List.contains_cons, Bool.not_or, Bool.and_comm]

end EmberRender

namespace EmberRender

theorem map_rid_filter_ne (vid : Nat) (l : List Root) :
    (l.filter (fun r => !(r.rid == vid))).map Root.rid
      = (l.map Root.rid).filter (fun i => !(i == vid)) :=
  map_rid_filter (fun i => !(i == vid)) l

theorem detach_ids (vid : Nat) (l : List Root) :
    (((l.filter (fun r => !(r.rid == vid))).map Root.rid : List Nat) : Multiset Nat)
      = Multiset.filter (fun i => i ≠ vid)
          ((l.map Root.rid : List Nat) : Multiset Nat) := by
  rw [map_rid_filter_ne]
  have hcoe : Multiset.filter (fun i => i ≠ vid) ((l.map Root.rid : List Nat) : Multiset Nat)
      = ((((l.map Root.rid).filter (fun a => decide (a ≠ vid))) : List Nat) : Multiset Nat) :=
    rfl
  rw [hcoe]
  congr 1
  apply List.filter_congr
  intro a _
  by_cases hav : a = vid <;> simp [hav]

/-- The joint invariant maintained by every attach / detach operation: the
    root ids are exactly the expected multiset, every root is live and
    rendered, and the ids are pairwise distinct.  Requires that all ids ever
    attached by the operation sequence are pairwise distinct and fresh with
    respect to the current roots. -/
theorem applyOps_spec (clock : Nat) : ∀ (ops : List SchedOp) (st : Scheduler),
    ((ops.map opIds).flatten.Nodup) →
    (∀ r ∈ st.roots, liveOk r ∧ r.rendered = true) →
    st.inRenderTransaction = false →
    st.removedRoots = [] →
    st.destroyed = false →
    ((st.roots.map Root.rid).Nodup) →
    (∀ i ∈ st.roots.map Root.rid, i ∉ (ops.map opIds).flatten) →
    (((applyOps clock ops st).roots.map Root.rid : List Nat) : Multiset Nat)
        = expectedFrom ((st.roots.map Root.rid : List Nat) : Multiset Nat) ops
    ∧ (((applyOps clock ops st).roots.map Root.rid).Nodup)
    ∧ (∀ r ∈ (applyOps clock ops st).roots, liveOk r ∧ r.rendered = true) := by
  intro ops
  induction ops with
  | nil =>
    intro st _ hroots _ _ _ hnd _
    exact ⟨rfl, hnd, hroots⟩
  | cons op rest ih =>
    intro st hwf hroots htx hrem hdest hnd hfresh
    cases op with
    | attach spec =>
      have hjoin : ((SchedOp.attach spec :: rest).map opIds).flatten
          = specIds spec ++ (rest.map opIds).flatten := rfl
      rw [hjoin] at hwf hfresh
      have hwfrest : (rest.map opIds).flatten.Nodup := (List.nodup_append.mp hwf).2.1
      have hspecnd : (specIds spec).Nodup := (List.nodup_append.mp hwf).1
      have hdisj : ∀ a ∈ specIds spec, a ∉ (rest.map opIds).flatten :=
        fun a ha => (List.nodup_append.mp hwf).2.2 ha
      obtain ⟨hids, hall, htx', hrem', hdest', _, _, _⟩ :=
        renderRoot_spec clock spec st htx hroots hrem
      have hroots' : ∀ r ∈ (renderRoot clock spec st).roots, liveOk r ∧ r.rendered = true :=
        fun r hr => ⟨(hall r hr).1, (hall r hr).2.1⟩
      have hnd' : (((renderRoot clock spec st).roots.map Root.rid)).Nodup := by
        rw [← Multiset.coe_nodup, hids, Multiset.nodup_add]
        refine ⟨Multiset.coe_nodup.mpr hnd, Multiset.coe_nodup.mpr hspecnd, ?_⟩
        rw [Multiset.disjoint_left]
        intro a ha
        have ha₁ : a ∈ st.roots.map Root.rid := by
          rwa [Multiset.mem_coe] at ha
        have := hfresh a ha₁
        rw [Multiset.mem_coe]
        intro hcontra
        exact this (List.mem_append_left _ hcontra)
      have hfresh' : ∀ i ∈ (renderRoot clock spec st).roots.map Root.rid,
          i ∉ (rest.map opIds).flatten := by
        intro i hi
        have : i ∈ ((st.roots.map Root.rid : List Nat) : Multiset Nat)
            + ((specIds spec : List Nat) : Multiset Nat) := by
          rw [← hids, Multiset.mem_coe]
          exact hi
        rcases Multiset.mem_add.mp this with hcase | hcase
        · rw [Multiset.mem_coe] at hcase
          intro hcontra
          exact hfresh i hcase (List.mem_append_right _ hcontra)
        · rw [Multiset.mem_coe] at hcase
          exact hdisj i hcase
      obtain ⟨A, B, C⟩ := ih (renderRoot clock spec st) hwfrest hroots' htx' hrem'
        (hdest' ▸ hdest) hnd' hfresh'
      refine ⟨?_, B, C⟩
      show (((applyOps clock rest (renderRoot clock spec st)).roots.map Root.rid
          : List Nat) : Multiset Nat) = _
      rw [A, hids, expectedFrom]
    | detach vid =>
      have hjoin : ((SchedOp.detach vid :: rest).map opIds).flatten
          = (rest.map opIds).flatten := rfl
      rw [hjoin] at hwf hfresh
      have hclean := cleanupRootFor_eq vid st hdest
      have hcroots : (cleanupRootFor vid st).roots
          = st.roots.filter (fun r => !(r.rid == vid)) := by
        rw [hclean]
      have hroots' : ∀ r ∈ (cleanupRootFor vid st).roots, liveOk r ∧ r.rendered = true := by
        rw [hcroots]
        intro r hr
        exact hroots r (List.mem_filter.mp hr).1
      have hnd' : ((cleanupRootFor vid st).roots.map Root.rid).Nodup := by
        rw [hcroots, map_rid_filter_ne]
        exact hnd.filter _
      have hfresh' : ∀ i ∈ (cleanupRootFor vid st).roots.map Root.rid,
          i ∉ (rest.map opIds).flatten := by
        intro i hi
        rw [hcroots, map_rid_filter_ne] at hi
        exact hfresh i (List.mem_of_mem_filter hi)
      obtain ⟨A, B, C⟩ := ih (cleanupRootFor vid st) hwf hroots'
        (by rw [hclean]; exact htx) (by rw [hclean]; exact hrem)
        (by rw [hclean]; exact hdest) hnd' hfresh'
      refine ⟨?_, B, C⟩
      show (((applyOps clock rest (cleanupRootFor vid st)).roots.map Root.rid
          : List Nat) : Multiset Nat) = _
      rw [A, expectedFrom]
      congr 1
      rw [hcroots, detach_ids]

end EmberRender

namespace EmberRender

/-- Counterexample to C2 as stated: starting from a destroyed root (id 1)
    still sitting in `_roots` and a live root (id 2) whose render attaches a
    live root (id 3), the do-while loop takes two passes and queues the
    destroyed root into `removedRoots` twice; before compaction the roots
    are exactly ids 1 (destroyed), 2 and 3 (both live), but the duplicate
    pop makes `indexOf` return -1 and `splice(-1, 1)` removes the last
    element, so the transaction ends with only root 2 — the live root 3 has
    been removed by compaction, contradicting the claim that compaction
    never removes a live root even when a destroyed root is encountered in
    more than one pass. -/
theorem claim_C2_counterexample :
    ((outerLoop (pendingList cexSched.roots + 1) cexSched.roots []).map
        (fun res => (res.1.map (fun r => (r.rid, r.destroyed)), res.2.map Root.rid)))
      = some ([(1, true), (2, false), (3, false)], [1, 1])
    ∧ (renderRoots 0 cexSched).roots.map Root.rid = [2] := by
  constructor <;> rfl

/-- C2 amended: for every sequence of attach and detach operations (with
    globally distinct ids), the scheduler's roots sequence contains exactly
    the attached, not-yet-detached roots — no duplicate and no lost entry,
    and no destroyed root remains; and the compaction step removes exactly
    the destroyed roots (never a live root) whenever each destroyed root is
    queued at most once, i.e. when it is encountered in a single pass of
    the do-while loop.  (When a destroyed root is encountered in more than
    one pass the duplicate queue entry makes compaction remove a live root;
    see the counterexample.) -/
theorem claim_C2_roots_exact :
    (∀ (clock : Nat) (ops : List SchedOp), ((ops.map opIds).flatten.Nodup) →
        (((applyOps clock ops initSched).roots.map Root.rid : List Nat) : Multiset Nat)
            = expectedIds ops
        ∧ (((applyOps clock ops initSched).roots.map Root.rid).Nodup)
        ∧ ∀ r ∈ (applyOps clock ops initSched).roots, r.destroyed = false)
    ∧ (∀ roots : List Root, (roots.map Root.rid).Nodup →
        compactRev roots ((roots.filter (fun r => r.destroyed)).reverse)
          = roots.filter (fun r => !r.destroyed)) := by
  constructor
  · intro clock ops hwf
    obtain ⟨A, B, C⟩ := applyOps_spec clock ops initSched hwf
      (by simp [initSched]) rfl rfl rfl (by simp [initSched]) (by simp [initSched])
    refine ⟨?_, B, fun r hr => ((C r hr).1).1⟩
    rw [A]
    rfl
  · intro roots hnd
    have hqnd : (((roots.filter (fun r => r.destroyed)).reverse).map Root.rid).Nodup := by
      rw [List.map_reverse, List.nodup_reverse]
      exact ((List.filter_sublist roots).map Root.rid).nodup hnd
    have hqmem : ∀ q ∈ (roots.filter (fun r => r.destroyed)).reverse,
        q.rid ∈ roots.map Root.rid := by
      intro q hq
      rw [List.mem_reverse] at hq
      exact List.mem_map_of_mem Root.rid (List.mem_of_mem_filter hq)
    rw [compactRev_removes _ roots hnd hqnd hqmem]
    apply List.filter_congr
    intro r hr
    have hiff : (((roots.filter (fun r => r.destroyed)).reverse).map Root.rid).contains r.rid
        = r.destroyed := by
      rcases hdr : r.destroyed
      · rcases hcase : (((roots.filter
            (fun r => r.destroyed)).reverse).map Root.rid).contains r.rid
        · exact hcase
        · exfalso
          have hmem := List.elem_iff.mp hcase
          rw [List.map_reverse, List.mem_reverse] at hmem
          obtain ⟨x, hx, hxr⟩ := List.mem_map.mp hmem
          have hxeq : x = r :=
            List.inj_on_of_nodup_map hnd (List.mem_of_mem_filter hx) hr hxr
          have hxdest := (List.mem_filter.mp hx).2
          rw [hxeq, hdr] at hxdest
          simp at hxdest
      · apply List.elem_iff.mpr
        rw [List.map_reverse, List.mem_reverse]
        exact List.mem_map_of_mem Root.rid (List.mem_filter.mpr ⟨hr, hdr⟩)
    rw [hiff]

/-- Witness for C2 (amended): a concrete attach / detach / attach sequence
    from a fresh scheduler, and a concrete single-pass compaction. -/
theorem claim_C2_roots_exact_witness :
    ((((applyOps 0 [SchedOp.attach (.node 1 []), SchedOp.detach 1,
          SchedOp.attach (.node 2 [.node 3 []])] initSched).roots.map Root.rid
        : List Nat) : Multiset Nat)
      = expectedIds [SchedOp.attach (.node 1 []), SchedOp.detach 1,
          SchedOp.attach (.node 2 [.node 3 []])])
    ∧ compactRev [staleRoot, spawningRoot]
        (([staleRoot, spawningRoot].filter (fun r => r.destroyed)).reverse)
        = [staleRoot, spawningRoot].filter (fun r => !r.destroyed) :=
  ⟨(claim_C2_roots_exact.1 0 [SchedOp.attach (.node 1 []), SchedOp.detach 1,
      SchedOp.attach (.node 2 [.node 3 []])] (by decide)).1,
   claim_C2_roots_exact.2 [staleRoot, spawningRoot] (by decide)⟩

end EmberRender

namespace EmberRender

/-
  The run-loop end sweep (`loopEnd`): facts about the first-invalid split
  and the two branches of the loop-limit check.
-/

theorem splitFirstInvalid_spec (clock : Nat) : ∀ (l pre post : List Scheduler)
    (r : Scheduler), splitFirstInvalid clock l = some (pre, r, post) →
    l = pre ++ r :: post ∧ isValid clock r = false
      ∧ ∀ x ∈ pre, isValid clock x = true := by
  intro l
  induction l with
  | nil =>
    intro pre post r h
    simp [splitFirstInvalid] at h
  | cons a rest ih =>
    intro pre post r h
    rw [splitFirstInvalid] at h
    by_cases hv : isValid clock a = true
    · rw [if_pos hv] at h
      rcases hcase : splitFirstInvalid clock rest with _ | pir
      · rw [hcase] at h
        exact absurd h (by simp)
      · rw [hcase] at h
        simp only [Option.some.injEq, Prod.mk.injEq] at h
        obtain ⟨h1, h2, h3⟩ := h
        obtain ⟨e1, e2, e3⟩ := ih pir.1 pir.2.2 pir.2.1 (by rw [hcase])
        refine ⟨?_, h2 ▸ e2, ?_⟩
        · rw [← h1, ← h2, ← h3, List.cons_append, ← e1]
        · intro x hx
          rw [← h1] at hx
          rcases List.mem_cons.mp hx with hx1 | hx1
          · rw [hx1]
            exact hv
          · exact e3 x hx1
    · rw [if_neg hv] at h
      simp only [Option.some.injEq, Prod.mk.injEq] at h
      obtain ⟨h1, h2, h3⟩ := h
      refine ⟨by rw [← h1, ← h2, ← h3]; rfl, ?_, ?_⟩
      · rw [← h2]
        simpa using hv
      · intro x hx
        rw [← h1] at hx
        simp at hx
  
theorem splitFirstInvalid_none (clock : Nat) : ∀ l : List Scheduler,
    (∀ r ∈ l, isValid clock r = true) → splitFirstInvalid clock l = none := by
  intro l
  induction l with
  | nil => intro _; rfl
  | cons a rest ih =>
    intro h
    rw [splitFirstInvalid, if_pos (h a (List.mem_cons_self _ _)),
      ih (fun r hr => h r (List.mem_cons_of_mem _ hr))]

/-- C3: at the run-loop end sweep, at the first invalid renderer: when the
    retry counter exceeds the loop limit, the counter is reset to 0, the
    renderer is destroyed (every root state it held is destroyed and the
    renderer is removed from the registry) and the single fatal
    infinite-rendering-invalidation error is thrown, so no further renderer
    is swept this tick and the settle promise is untouched; when the
    counter has not exceeded the limit, the counter is incremented by one,
    one more run-loop cycle is requested and the sweep stops with the
    registry unchanged. -/
theorem claim_C3_loop_limit (g : GlobalState) (pre post : List Scheduler) (r : Scheduler)
    (hsplit : splitFirstInvalid g.clock g.renderers = some (pre, r, post)) :
    (g.loopLimit < g.loops →
        (loopEnd g).2 = .fatal r.sid (r.roots.map destroyRoot)
        ∧ (loopEnd g).1.renderers = pre ++ post
        ∧ (loopEnd g).1.loops = 0
        ∧ (loopEnd g).1.deferred = g.deferred
        ∧ ∀ x ∈ r.roots.map destroyRoot, x.destroyed = true)
    ∧ (¬ g.loopLimit < g.loops →
        (loopEnd g).2 = .retryScheduled
        ∧ (loopEnd g).1.renderers = g.renderers
        ∧ (loopEnd g).1.loops = g.loops + 1
        ∧ (loopEnd g).1.deferred = g.deferred) := by
  obtain ⟨hsplit1, hsplit2, hsplit3⟩ :=
    splitFirstInvalid_spec g.clock g.renderers pre post r hsplit
  have hinvalid : r.destroyed = false ∧ (r.roots.length == 0) = false := by
    rw [isValid] at hsplit2
    rcases hd : r.destroyed <;> rcases hl : r.roots.length == 0 <;>
      rw [hd, hl] at hsplit2 <;> simp_all
  constructor
  · intro hlimit
    have hcond : (r.destroyed || r.roots.length == 0) = false := by
      rw [hinvalid.1, hinvalid.2]
      rfl
    have hdr : destroyRenderer r
        = clearAllRoots { r with destroyed := true } := by
      rw [destroyRenderer, if_neg (by simp [hinvalid.1])]
    refine ⟨?_, ?_, ?_, ?_, ?_⟩
    · simp only [loopEnd, hsplit, if_pos hlimit]
      rw [hdr, clearAllRoots]
    · simp only [loopEnd, hsplit, if_pos hlimit, hcond, Bool.false_eq_true, if_false]
    · simp only [loopEnd, hsplit, if_pos hlimit]
    · simp only [loopEnd, hsplit, if_pos hlimit]
    · intro x hx
      obtain ⟨y, _, rfl⟩ := List.mem_map.mp hx
      rfl
  · intro hlimit
    refine ⟨?_, ?_, ?_, ?_⟩ <;>
      simp only [loopEnd, hsplit, if_neg hlimit]

/-- Witness for C3: one invalid renderer at clock 1.  With the retry
    counter at 6 and the limit at 5 the sweep destroys the renderer and
    throws; with the counter at 3 it increments and requests another
    cycle. -/
theorem claim_C3_loop_limit_witness :
    (loopEnd gFatal).2 = .fatal invalidSched.sid (invalidSched.roots.map destroyRoot)
    ∧ (loopEnd gFatal).1.renderers = [] ++ []
    ∧ (loopEnd gFatal).1.loops = 0
    ∧ (loopEnd gRetry).2 = .retryScheduled
    ∧ (loopEnd gRetry).1.loops = gRetry.loops + 1 := by
  have h1 := claim_C3_loop_limit gFatal [] [] invalidSched rfl
  have h2 := claim_C3_loop_limit gRetry [] [] invalidSched rfl
  obtain ⟨o1, o2, o3, _, _⟩ := h1.1 (by norm_num [gFatal])
  obtain ⟨p1, _, p3, _⟩ := h2.2 (by norm_num [gRetry, gFatal])
  exact ⟨o1, o2, o3, p1, p3⟩

/-- C6: at most one outstanding settle promise exists: `renderSettled`
    returns the existing handle when one is outstanding and otherwise
    creates it lazily, scheduling a no-op run-loop task when no run loop is
    active; the promise is resolved (and the handle cleared) only by a
    run-loop end sweep in which every registered renderer is valid, and an
    end sweep that finds an invalid renderer leaves the promise
    untouched. -/
theorem claim_C6_settle (g : GlobalState) :
    (∀ h : Nat, g.deferred = some h → renderSettled g = (h, g))
    ∧ (g.deferred = none →
        (renderSettled g).2.deferred = some g.nextHandle
        ∧ (renderSettled g).1 = g.nextHandle
        ∧ (g.runloopActive = false → (renderSettled g).2.scheduledNoop = true)
        ∧ renderSettled (renderSettled g).2
            = ((renderSettled g).1, (renderSettled g).2))
    ∧ ((∀ r ∈ g.renderers, isValid g.clock r = true) →
        (loopEnd g).1.deferred = none
        ∧ (loopEnd g).2 = .settledCheck g.deferred.isSome)
    ∧ (∀ pre post (r : Scheduler),
        splitFirstInvalid g.clock g.renderers = some (pre, r, post) →
        (loopEnd g).1.deferred = g.deferred) := by
  refine ⟨?_, ?_, ?_, ?_⟩
  · intro h hdef
    rw [renderSettled, hdef]
  · intro hdef
    rcases hact : g.runloopActive
    · have hset : renderSettled g
          = (g.nextHandle, { g with
              deferred := some g.nextHandle
              nextHandle := g.nextHandle + 1
              scheduledNoop := true }) := by
        rw [renderSettled, hdef]
        simp [hact]
      refine ⟨by rw [hset], by rw [hset], fun _ => by rw [hset], ?_⟩
      rw [hset]
      rfl
    · have hset : renderSettled g
          = (g.nextHandle, { g with
              deferred := some g.nextHandle
              nextHandle := g.nextHandle + 1 }) := by
        rw [renderSettled, hdef]
        simp [hact]
      refine ⟨by rw [hset], by rw [hset],
        fun hcontra => absurd hcontra (by simp [hact]), ?_⟩
      rw [hset]
      rfl
  · intro hvalid
    have hnone := splitFirstInvalid_none g.clock g.renderers hvalid
    constructor <;> simp only [loopEnd, hnone]
  · intro pre post r hsplit
    simp only [loopEnd, hsplit]
    split <;> rfl

/-- Witness for C6: with an outstanding handle, `renderSettled` returns it
    unchanged; with no handle and no active run loop a handle is created
    and a no-op task scheduled; an all-valid sweep clears the handle; the
    fatal sweep of `gFatal` leaves it untouched. -/
theorem claim_C6_settle_witness :
    renderSettled gValid = (0, gValid)
    ∧ (renderSettled gIdle).2.deferred = some gIdle.nextHandle
    ∧ (renderSettled gIdle).2.scheduledNoop = true
    ∧ (loopEnd gValid).1.deferred = none
    ∧ (loopEnd gValid).2 = .settledCheck true
    ∧ (loopEnd gFatal).1.deferred = gFatal.deferred := by
  have h1 := claim_C6_settle gValid
  have h2 := claim_C6_settle gIdle
  have h3 := claim_C6_settle gFatal
  obtain ⟨a1, _, a3, _⟩ := h2.2.1 rfl
  obtain ⟨b1, b2⟩ := h1.2.2.1 (by intro r hr; simp [gValid, gFatal] at hr)
  exact ⟨h1.1 0 rfl, a1, a3 rfl, b1, b2, h3.2.2.2 [] [] invalidSched rfl⟩

end EmberRender

namespace EmberResolver

theorem cacheGet_cons (p : CacheKey × ResolvedDef) (c : List (CacheKey × ResolvedDef))
    (k : CacheKey) :
    cacheGet (p :: c) k = if p.1 == k then some p.2 else cacheGet c k := by
  rw [cacheGet, cacheGet, List.find?_cons]
  by_cases hp : (p.1 == k) = true <;> simp [hp]

theorem cacheGet_append_self : ∀ (c : List (CacheKey × ResolvedDef)) (k : CacheKey)
    (d : ResolvedDef), cacheGet c k = none → cacheGet (c ++ [(k, d)]) k = some d
  | [], k, d, _ => by
    rw [List.nil_append, cacheGet_cons]
    simp
  | p :: rest, k, d, h => by
    rw [cacheGet_cons] at h
    rw [List.cons_append, cacheGet_cons]
    by_cases hp : (p.1 == k) = true
    · rw [if_pos hp] at h
      exact absurd h (by simp)
    · rw [if_neg hp] at h
      rw [if_neg hp]
      exact cacheGet_append_self rest k d h

/-- C7: `_lookupComponentDefinition` called twice with the same name and
    owner: when the first call is a cache miss that resolves a definition,
    the second call returns the identical cached definition with no state
    change, and the instrumentation start/finish pair fires exactly once
    across the two calls (once on the miss, never on the hit). -/
theorem claim_C7_component_cache (tmplOnly : Bool) (name : String) (owner : COwner)
    (rs₀ rs₁ : ResolverState) (d : ResolvedDef) (k : CacheKey)
    (hkey : componentLookupKey owner name = some k)
    (hmiss : cacheGet rs₀.cache k = none)
    (h1 : lookupComponentDefinition tmplOnly name owner rs₀ = .ok (some d, rs₁)) :
    lookupComponentDefinition tmplOnly name owner rs₁ = .ok (some d, rs₁)
    ∧ rs₁.instrStarts = rs₀.instrStarts ++ [name]
    ∧ rs₁.instrFinishes = rs₀.instrFinishes ++ [name]
    ∧ rs₁.cache = rs₀.cache ++ [(k, d)] := by
  rcases hpair : lookupComponentPair owner name with _ | pair
  · rw [componentLookupKey, hpair] at hkey
    exact absurd hkey (by simp)
  · simp only [componentLookupKey, hpair] at hkey
    rcases hcomp : pair.component with _ | c
    · rcases hlay : pair.layout with _ | tf
      · simp only [hcomp, hlay] at hkey
        exact absurd hkey (by simp)
      · simp only [hcomp, hlay, Option.some.injEq] at hkey
        subst hkey
        simp only [lookupComponentDefinition, hpair, hcomp, hlay, hmiss] at h1
        rcases hto : tmplOnly
        · rw [hto] at h1
          simp only [Bool.false_eq_true, if_false, Except.ok.injEq, Prod.mk.injEq,
            Option.some.injEq] at h1
          obtain ⟨hd, hrs⟩ := h1
          have hhit : cacheGet rs₁.cache (CacheKey.templateKey tf.tfid owner.oid)
              = some d := by
            rw [← hrs, ← hd]
            exact cacheGet_append_self rs₀.cache _ _ hmiss
          refine ⟨?_, by rw [← hrs], by rw [← hrs], by rw [← hrs, ← hd]⟩
          simp only [lookupComponentDefinition, hpair, hcomp, hlay, hhit]
        · rw [hto] at h1
          simp only [if_true, Except.ok.injEq, Prod.mk.injEq, Option.some.injEq] at h1
          obtain ⟨hd, hrs⟩ := h1
          have hhit : cacheGet rs₁.cache (CacheKey.templateKey tf.tfid owner.oid)
              = some d := by
            rw [← hrs, ← hd]
            exact cacheGet_append_self rs₀.cache _ _ hmiss
          refine ⟨?_, by rw [← hrs], by rw [← hrs], by rw [← hrs, ← hd]⟩
          simp only [lookupComponentDefinition, hpair, hcomp, hlay, hhit]
    · simp only [hcomp, Option.some.injEq] at hkey
      subst hkey
      simp only [lookupComponentDefinition, hpair, hcomp, hmiss] at h1
      rcases hklass : c.klass with _ | kl
      · rw [hklass] at h1
        exact absurd h1 (by simp)
      · rw [hklass] at h1
        simp only [Except.ok.injEq, Prod.mk.injEq, Option.some.injEq] at h1
        obtain ⟨hd, hrs⟩ := h1
        have hhit : cacheGet rs₁.cache (CacheKey.factoryKey c.fid) = some d := by
          rw [← hrs, ← hd]
          exact cacheGet_append_self rs₀.cache _ _ hmiss
        refine ⟨?_, by rw [← hrs], by rw [← hrs], by rw [← hrs, ← hd]⟩
        simp only [lookupComponentDefinition, hpair, hcomp, hhit]

/-- Witness for C7: looking `x-button` up twice on an owner with a single
    template-only component; the second call returns the identical cached
    definition and the instrumentation pair has fired exactly once. -/
theorem claim_C7_component_cache_witness :
    (lookupComponentDefinition true "x-button" buttonOwner
        ((lookupComponentDefinition true "x-button" buttonOwner rsInit).toOption.get
          (by rfl)).2
      = .ok (some { state := .templateOnlyState "x-button"
                    manager := .templateOnly
                    template := some { tfid := 11, ownerId := 1 } },
             { cache := [(CacheKey.templateKey 11 1,
                 { state := .templateOnlyState "x-button"
                   manager := .templateOnly
                   template := some { tfid := 11, ownerId := 1 } })]
               instrStarts := ["x-button"]
               instrFinishes := ["x-button"] }))
    ∧ ({ cache := [(CacheKey.templateKey 11 1,
           { state := .templateOnlyState "x-button"
             manager := .templateOnly
             template := some { tfid := 11, ownerId := 1 } })]
         instrStarts := ["x-button"]
         instrFinishes := ["x-button"] } : ResolverState).instrStarts
        = rsInit.instrStarts ++ ["x-button"] := by
  have h := claim_C7_component_cache true "x-button" buttonOwner rsInit
    { cache := [(CacheKey.templateKey 11 1,
        { state := .templateOnlyState "x-button"
          manager := .templateOnly
          template := some { tfid := 11, ownerId := 1 } })]
      instrStarts := ["x-button"]
      instrFinishes := ["x-button"] }
    { state := .templateOnlyState "x-button"
      manager := .templateOnly
      template := some { tfid := 11, ownerId := 1 } }
    (CacheKey.templateKey 11 1) rfl rfl rfl
  exact ⟨h.1, h.2.1⟩

end EmberResolver

namespace EmberResolver

/-- C9: `_lookupHelper` signals the fatal configuration error exactly when
    the requested name is a built-in helper name and the owner also has a
    user registration under `helper:<name>`; otherwise, when the name is a
    built-in, the built-in definition is returned (built-ins take
    precedence over owner delegation). -/
theorem claim_C9_builtin_shadowing (owner : HOwner) (name : String) (assoc : List Nat) :
    ((∃ e, lookupHelper owner name assoc = .error e)
      ↔ ((builtinHelper name).isSome = true
          ∧ owner.hasRegistration ("helper:" ++ name) = true))
    ∧ (∀ tok, builtinHelper name = some tok →
        owner.hasRegistration ("helper:" ++ name) = false →
        lookupHelper owner name assoc = .ok (some (.builtinDef tok), assoc)) := by
  constructor
  · constructor
    · rintro ⟨e, he⟩
      by_cases hcond : ((builtinHelper name).isSome
          && owner.hasRegistration ("helper:" ++ name)) = true
      · simpa using hcond
      · exfalso
        rw [lookupHelper, if_neg hcond] at he
        rcases hb : builtinHelper name with _ | tok
        · simp only [hb] at he
          rcases hf : owner.helperFactory ("helper:" ++ name) with _ | factory
          · simp only [hf] at he
            exact Except.noConfusion he
          · simp only [hf] at he
            rcases hk : factory.klass with _ | kl
            · simp only [hk] at he
              exact Except.noConfusion he
            · simp only [hk] at he
              rcases hc : kl.classic
              · simp only [hc, Bool.false_eq_true, if_false] at he
                exact Except.noConfusion he
              · simp only [hc, if_true] at he
                exact Except.noConfusion he
        · simp only [hb] at he
          exact Except.noConfusion he
    · rintro ⟨hsome, hreg⟩
      exact ⟨_, by rw [lookupHelper, if_pos (by rw [hsome, hreg]; rfl)]⟩
  · intro tok hb hreg
    rw [lookupHelper, if_neg (by rw [hreg]; simp), hb]

/-- Witness for C9: looking up the built-in `if` on an owner with no user
    registrations returns the built-in; on an owner that also registers
    `helper:if`, the lookup signals the fatal shadowing error. -/
theorem claim_C9_builtin_shadowing_witness :
    lookupHelper plainHOwner "if" [] = .ok (some (.builtinDef 0), [])
    ∧ ∃ e, lookupHelper shadowingHOwner "if" [] = .error e :=
  ⟨(claim_C9_builtin_shadowing plainHOwner "if" []).2 0 rfl rfl,
   (claim_C9_builtin_shadowing shadowingHOwner "if" []).1.mpr ⟨rfl, rfl⟩⟩

end EmberResolver

namespace EmberErrorLoop

theorem iterateWrapped_nooped (failsAt : Nat → Bool) : ∀ (n : Nat) (s : WrappedFnState),
    s.nooped = true →
    (iterateWrapped true failsAt n s).1.renders = s.renders
    ∧ (iterateWrapped true failsAt n s).1.nooped = true
    ∧ ∀ b ∈ (iterateWrapped true failsAt n s).2, b = false := by
  intro n
  induction n with
  | zero =>
    intro s h
    exact ⟨rfl, h, by simp [iterateWrapped]⟩
  | succ n ih =>
    intro s h
    have hstep : invokeWrapped true failsAt s
        = ({ s with warnings := s.warnings + 1 }, false) := by
      rw [invokeWrapped]
      simp [h]
    obtain ⟨i1, i2, i3⟩ := ih { s with warnings := s.warnings + 1 } h
    simp only [iterateWrapped, hstep]
    refine ⟨i1, i2, ?_⟩
    intro b hb
    rcases List.mem_cons.mp hb with hb1 | hb1
    · exact hb1
    · exact i3 b hb1

/-- C8 amended: in debug builds (the `if (DEBUG)` branch of
    `errorLoopTransaction`), once an invocation of a wrapped render closure
    throws, the closure is permanently replaced by a warn-only no-op, so
    every later invocation performs no render work and raises no error; in
    non-debug builds the wrapper returns the closure unchanged and a
    throwing render is not replaced (see the counterexample). -/
theorem claim_C8_noop_after_throw (failsAt : Nat → Bool) (s₀ s₁ : WrappedFnState)
    (h : invokeWrapped true failsAt s₀ = (s₁, true)) (n : Nat) :
    (iterateWrapped true failsAt n s₁).1.renders = s₁.renders
    ∧ ∀ b ∈ (iterateWrapped true failsAt n s₁).2, b = false := by
  have hnoop : s₁.nooped = true := by
    rcases h0 : s₀.nooped
    · rcases hf : failsAt s₀.callsToUnderlying
      · have heq : invokeWrapped true failsAt s₀
            = ({ s₀ with
                  callsToUnderlying := s₀.callsToUnderlying + 1
                  renders := s₀.renders + 1 }, false) := by
          rw [invokeWrapped]
          simp [h0, hf]
        rw [heq] at h
        exact absurd (congrArg Prod.snd h) (by simp)
      · have heq : invokeWrapped true failsAt s₀
            = ({ s₀ with
                  callsToUnderlying := s₀.callsToUnderlying + 1
                  nooped := true }, true) := by
          rw [invokeWrapped]
          simp [h0, hf]
        rw [heq] at h
        have h2 := congrArg Prod.fst h
        simp only at h2
        rw [← h2]
    · have heq : invokeWrapped true failsAt s₀
          = ({ s₀ with warnings := s₀.warnings + 1 }, false) := by
        rw [invokeWrapped]
        simp [h0]
      rw [heq] at h
      exact absurd (congrArg Prod.snd h) (by simp)
  obtain ⟨i1, _, i3⟩ := iterateWrapped_nooped failsAt n s₁ hnoop
  exact ⟨i1, i3⟩

/-- Witness for C8 (amended): with `DEBUG = true` and a render that always
    throws, after the first (throwing) invocation three further invocations
    perform no render and raise no error. -/
theorem claim_C8_noop_after_throw_witness :
    (iterateWrapped true (fun _ => true) 3
        (invokeWrapped true (fun _ => true)
          { callsToUnderlying := 0, renders := 0, warnings := 0, nooped := false }).1).1.renders
      = (invokeWrapped true (fun _ => true)
          { callsToUnderlying := 0, renders := 0, warnings := 0, nooped := false }).1.renders
    ∧ ∀ b ∈ (iterateWrapped true (fun _ => true) 3
        (invokeWrapped true (fun _ => true)
          { callsToUnderlying := 0, renders := 0, warnings := 0, nooped := false }).1).2,
        b = false :=
  claim_C8_noop_after_throw (fun _ => true)
    { callsToUnderlying := 0, renders := 0, warnings := 0, nooped := false } _ rfl 3

/-- Counterexample to C8 as stated: with `DEBUG = false`,
    `errorLoopTransaction` returns the render closure unchanged, so after a
    first invocation that throws, the next invocation of the root's render
    operation raises an error again instead of being a warn-only no-op. -/
theorem claim_C8_counterexample :
    (invokeWrapped false (fun _ => true)
        { callsToUnderlying := 0, renders := 0, warnings := 0, nooped := false }).2 = true
    ∧ (invokeWrapped false (fun _ => true)
        (invokeWrapped false (fun _ => true)
          { callsToUnderlying := 0, renders := 0, warnings := 0, nooped := false }).1).2
        = true := by
  constructor <;> rfl

end EmberErrorLoop
